import Mathlib

/-!
Verification development for the bitespeed identity-resolution service.

The embedding models the contact store as a list of contact rows plus a
next-id counter and a clock, and models the resolution service
(repository queries, merge writes, response formatting and the identify
orchestration) as pure functions over that state.  Database result
ordering is modelled by a stable insertion sort on the requested key,
matching both the SQL ordering and the stable JavaScript array sort used
by the service.
-/

namespace Bitespeed

/-- Link precedence of a contact row: primary or secondary. -/
inductive LinkPrecedence where
  | primary
  | secondary
  deriving DecidableEq, Repr

/-- A contact row as persisted by the contact store. -/
structure Contact where
  id : Nat
  email : Option String
  phoneNumber : Option String
  linkedId : Option Nat
  linkPrecedence : LinkPrecedence
  createdAt : Nat
  updatedAt : Nat
  deletedAt : Option Nat
  deriving DecidableEq, Repr

/-- The contact store: rows in insertion order, the next id the store will
assign, and the current clock used for timestamps. -/
structure Store where
  rows : List Contact
  nextId : Nat
  now : Nat
  deriving DecidableEq, Repr

/-- Input of the identify operation. -/
structure IdentifyInput where
  email : Option String
  phoneNumber : Option String
  deriving DecidableEq, Repr

/-- Externally visible consolidated view of a cluster. -/
structure IdentifyResponse where
  primaryContactId : Nat
  emails : List String
  phoneNumbers : List String
  secondaryContactIds : List Nat
  deriving DecidableEq, Repr

/-- Faults the service can raise: the validation error thrown before the
transaction, the invariant error thrown by the response formatter when a
cluster has no primary, and the runtime type error hit when the elected
canonical primary is dereferenced although the election found no primary
at all. -/
inductive Fault where
  | validation
  | noPrimary
  | undefinedAccess
  deriving DecidableEq, Repr

/-- JavaScript truthiness of an optional string: null, undefined and the
empty string are falsy. -/
def strTruthy : Option String → Bool
  | none => false
  | some s => !(s == "")

/-- Ordering of contact rows by creation timestamp. -/
def leCreatedAt (a b : Contact) : Prop := a.createdAt ≤ b.createdAt

instance : DecidableRel leCreatedAt := fun a b => Nat.decLe a.createdAt b.createdAt

/-- Ordering of contact rows by id. -/
def leId (a b : Contact) : Prop := a.id ≤ b.id

instance : DecidableRel leId := fun a b => Nat.decLe a.id b.id

/-- Stable sort of rows ascending by createdAt, modelling orderBy createdAt asc. -/
def sortByCreatedAt (l : List Contact) : List Contact := List.insertionSort leCreatedAt l

/-- Stable sort of rows ascending by id, modelling the sort in the formatter. -/
def sortById (l : List Contact) : List Contact := List.insertionSort leId l

/-- The OR condition of findDirectMatches: the row matches a present email
or a present phone number. -/
def rowMatches (email phoneNumber : Option String) (c : Contact) : Bool :=
  (strTruthy email && c.email == email) || (strTruthy phoneNumber && c.phoneNumber == phoneNumber)

/-- Find contacts matching either the provided email or phoneNumber; only
truthy fields become conditions, deleted rows are excluded, and the result
is ordered by createdAt ascending. -/
def findDirectMatches (s : Store) (email phoneNumber : Option String) : List Contact :=
  if !strTruthy email && !strTruthy phoneNumber then []
  else sortByCreatedAt (s.rows.filter fun c => c.deletedAt == none && rowMatches email phoneNumber c)

/-- Where clause of fetchCluster: id in primaryIds or linkedId in primaryIds,
not deleted. -/
def inCluster (primaryIds : List Nat) (c : Contact) : Bool :=
  (primaryIds.contains c.id ||
    (match c.linkedId with
     | some j => primaryIds.contains j
     | none => false)) && c.deletedAt == none

/-- Fetch the full cluster: all non-deleted contacts whose id or linkedId is
in primaryIds, ordered by createdAt ascending. -/
def fetchCluster (s : Store) (primaryIds : List Nat) : List Contact :=
  sortByCreatedAt (s.rows.filter (inCluster primaryIds))

/-- Where clause of fetchFinalCluster: id equal to the canonical primary id or
linkedId equal to it, not deleted. -/
def inFinalCluster (canonicalPrimaryId : Nat) (c : Contact) : Bool :=
  (c.id == canonicalPrimaryId || c.linkedId == some canonicalPrimaryId) && c.deletedAt == none

/-- Re-fetch the final cluster by canonical primary id. -/
def fetchFinalCluster (s : Store) (canonicalPrimaryId : Nat) : List Contact :=
  sortByCreatedAt (s.rows.filter (inFinalCluster canonicalPrimaryId))

/-- Row-level effect of the demote update: the row with the demoted id becomes
secondary and points at the canonical primary. -/
def demoteRow (demotedId canonicalPrimaryId now : Nat) (c : Contact) : Contact :=
  if c.id = demotedId then
    { c with linkPrecedence := LinkPrecedence.secondary,
             linkedId := some canonicalPrimaryId, updatedAt := now }
  else c

/-- Demote a contact to secondary, pointing its linkedId at the canonical
primary. -/
def demoteToSecondary (s : Store) (demotedId canonicalPrimaryId : Nat) : Store :=
  { s with rows := s.rows.map (demoteRow demotedId canonicalPrimaryId s.now) }

/-- Row-level effect of the reparent bulk update: every non-deleted row whose
linkedId equals the demoted id is pointed at the canonical primary. -/
def reparentRow (demotedId canonicalPrimaryId now : Nat) (c : Contact) : Contact :=
  if c.linkedId = some demotedId ∧ c.deletedAt = none then
    { c with linkedId := some canonicalPrimaryId, updatedAt := now }
  else c

/-- Re-parent all secondaries of a demoted primary to the canonical primary. -/
def reparentSecondaries (s : Store) (demotedId canonicalPrimaryId : Nat) : Store :=
  { s with rows := s.rows.map (reparentRow demotedId canonicalPrimaryId s.now) }

/-- Input of createContact. -/
structure ContactCreateInput where
  email : Option String
  phoneNumber : Option String
  linkedId : Option Nat
  linkPrecedence : LinkPrecedence

/-- Create a new contact row with the next store-assigned id. -/
def createContact (s : Store) (d : ContactCreateInput) : Contact × Store :=
  let c : Contact :=
    { id := s.nextId, email := d.email, phoneNumber := d.phoneNumber,
      linkedId := d.linkedId, linkPrecedence := d.linkPrecedence,
      createdAt := s.now, updatedAt := s.now, deletedAt := none }
  (c, { s with rows := s.rows ++ [c], nextId := s.nextId + 1 })

/-- Matching condition of the idempotency re-query: both fields when both are
given, otherwise the single given field. -/
def exactPred (email phoneNumber : Option String) (c : Contact) : Bool :=
  if strTruthy email && strTruthy phoneNumber then
    c.email == email && c.phoneNumber == phoneNumber
  else if strTruthy email then c.email == email
  else if strTruthy phoneNumber then c.phoneNumber == phoneNumber
  else false

/-- Idempotency check: find an existing non-deleted contact matching the exact
input, or none when both fields are absent. -/
def findExactMatch (s : Store) (email phoneNumber : Option String) : Option Contact :=
  if !strTruthy email && !strTruthy phoneNumber then none
  else s.rows.find? fun c => c.deletedAt == none && exactPred email phoneNumber c

/-- Insertion-ordered set insert used for the primary id set. -/
def insertId (acc : List Nat) (x : Nat) : List Nat :=
  if x ∈ acc then acc else acc ++ [x]

/-- One step of collecting primary ids from the direct matches: a primary seed
contributes its own id, a non-primary seed with a non-null linkedId
contributes that linkedId. -/
def addPrimaryId (acc : List Nat) (c : Contact) : List Nat :=
  if c.linkPrecedence = LinkPrecedence.primary then insertId acc c.id
  else
    match c.linkedId with
    | some j => insertId acc j
    | none => acc

/-- All primary ids referenced by the direct matches, in first-seen order. -/
def collectPrimaryIds (seeds : List Contact) : List Nat :=
  seeds.foldl addPrimaryId []

/-- Test for primary precedence. -/
def isPrimaryRow (c : Contact) : Bool := c.linkPrecedence == LinkPrecedence.primary

/-- Test for secondary precedence. -/
def isSecondaryRow (c : Contact) : Bool := c.linkPrecedence == LinkPrecedence.secondary

/-- One step of order-preserving de-duplication: a truthy not-yet-seen value is
appended, everything else is skipped. -/
def addSeenValue (acc : List String) (v : Option String) : List String :=
  match v with
  | none => acc
  | some e => if e ≠ "" ∧ e ∉ acc then acc ++ [e] else acc

/-- Order-preserving de-duplication of optional values, skipping nulls and
empty strings. -/
def collectValues (values : List (Option String)) : List String :=
  values.foldl addSeenValue []

/-- Project a cluster into the externally visible response shape; faults when
the cluster contains no primary. -/
def formatResponse (cluster : List Contact) : Except Fault IdentifyResponse :=
  match cluster.find? isPrimaryRow with
  | none => Except.error Fault.noPrimary
  | some primary =>
    let secondaries := sortById (cluster.filter isSecondaryRow)
    Except.ok
      { primaryContactId := primary.id
        emails := collectValues (primary.email :: secondaries.map Contact.email)
        phoneNumbers := collectValues (primary.phoneNumber :: secondaries.map Contact.phoneNumber)
        secondaryContactIds := secondaries.map Contact.id }

/-- Body of the demotion loop: re-parent the demoted primary's children first,
then demote the primary itself. -/
def mergeStep (s : Store) (demotedId canonicalPrimaryId : Nat) : Store :=
  demoteToSecondary (reparentSecondaries s demotedId canonicalPrimaryId)
    demotedId canonicalPrimaryId

/-- The demotion loop of identify over the demoted primary ids. -/
def runMerges (canonicalPrimaryId : Nat) (s : Store) : List Nat → Store
  | [] => s
  | d :: ds => runMerges canonicalPrimaryId (mergeStep s d canonicalPrimaryId) ds

/-- Every store state reached after each single write of the demotion loop:
for each demoted id, first the state after the re-parent bulk update, then
the state after the demote update. -/
def mergeTrace (canonicalPrimaryId : Nat) (s : Store) : List Nat → List Store
  | [] => []
  | d :: ds =>
    let s1 := reparentSecondaries s d canonicalPrimaryId
    let s2 := demoteToSecondary s1 d canonicalPrimaryId
    s1 :: s2 :: mergeTrace canonicalPrimaryId s2 ds

/-- The primaries of a cluster sorted ascending by createdAt; the canonical
primary is the head of this list. -/
def electPrimaries (cluster : List Contact) : List Contact :=
  sortByCreatedAt (cluster.filter isPrimaryRow)

/-- Step 3 of identify: no direct matches, create a fresh primary and format
it as the sole cluster member. -/
def createPrimaryBranch (s : Store) (input : IdentifyInput) :
    Except Fault (IdentifyResponse × Store) :=
  let created := createContact s
    { email := input.email, phoneNumber := input.phoneNumber,
      linkedId := none, linkPrecedence := LinkPrecedence.primary }
  (formatResponse [created.1]).map fun r => (r, created.2)

/-- Steps 4D to 4G of identify: demote the extra primaries, check the exact
match, create a secondary when new information is present, re-fetch the
final cluster and format it. -/
def mergePhase (s : Store) (input : IdentifyInput) (canonicalPrimary : Contact)
    (demoted : List Contact) : Except Fault (IdentifyResponse × Store) :=
  let s2 := runMerges canonicalPrimary.id s (demoted.map Contact.id)
  match findExactMatch s2 input.email input.phoneNumber with
  | some _ =>
    (formatResponse (fetchFinalCluster s2 canonicalPrimary.id)).map fun r => (r, s2)
  | none =>
    let created := createContact s2
      { email := input.email, phoneNumber := input.phoneNumber,
        linkedId := some canonicalPrimary.id,
        linkPrecedence := LinkPrecedence.secondary }
    (formatResponse (fetchFinalCluster created.2 canonicalPrimary.id)).map
      fun r => (r, created.2)

/-- Steps 4A to 4C of identify: fetch the full cluster of the matches, elect
the canonical primary, then run the merge phase; dereferencing the elected
primary when the cluster holds no primary is the runtime type fault. -/
def matchBranch (s : Store) (input : IdentifyInput) (directMatches : List Contact) :
    Except Fault (IdentifyResponse × Store) :=
  let cluster := fetchCluster s (collectPrimaryIds directMatches)
  match electPrimaries cluster with
  | [] => Except.error Fault.undefinedAccess
  | canonicalPrimary :: demoted => mergePhase s input canonicalPrimary demoted

/-- The transaction body of identify. -/
def identifyTx (s : Store) (input : IdentifyInput) :
    Except Fault (IdentifyResponse × Store) :=
  let directMatches := findDirectMatches s input.email input.phoneNumber
  if directMatches.isEmpty then createPrimaryBranch s input
  else matchBranch s input directMatches

/-- The core identity resolution: validation guard, then the transaction body
with direct match, new-primary creation or cluster merge, idempotency
check, secondary creation and response formatting. -/
def identify (s : Store) (input : IdentifyInput) : Except Fault (IdentifyResponse × Store) :=
  if !strTruthy input.email && !strTruthy input.phoneNumber then
    Except.error Fault.validation
  else identifyTx s input

/-- Repeated identify calls with one input: index n is the result of call
number n + 1, each call running on the store left by the previous one. -/
def iterateIdentify (input : IdentifyInput) : Nat → Store → Except Fault (IdentifyResponse × Store)
  | 0, s => identify s input
  | n + 1, s =>
    match identify s input with
    | Except.error f => Except.error f
    | Except.ok p => iterateIdentify input n p.2

/-- The effect of the whole demotion loop on one row: both updates of each
iteration applied in order.  The loop is a per-row rewrite, so running it
equals mapping this function over the rows. -/
def mergeRows (canonicalPrimaryId now : Nat) : List Nat → Contact → Contact
  | [], c => c
  | d :: ds, c =>
    mergeRows canonicalPrimaryId now ds
      (demoteRow d canonicalPrimaryId now (reparentRow d canonicalPrimaryId now c))

/-- The fresh primary row identify inserts when no direct match exists. -/
def newPrimaryContact (s : Store) (input : IdentifyInput) : Contact :=
  { id := s.nextId, email := input.email, phoneNumber := input.phoneNumber,
    linkedId := none, linkPrecedence := LinkPrecedence.primary,
    createdAt := s.now, updatedAt := s.now, deletedAt := none }

/-- An empty store as shipped: no rows, ids starting at 1. -/
def emptyStore : Store := { rows := [], nextId := 1, now := 0 }

/-- A request carrying neither identifying field. -/
def inputNone : IdentifyInput := { email := none, phoneNumber := none }

/-- A request carrying both an email and a phone number. -/
def inputA : IdentifyInput := { email := some "a", phoneNumber := some "1" }

/-- The row created by running inputA against the empty store. -/
def contactA : Contact :=
  { id := 1, email := some "a", phoneNumber := some "1", linkedId := none,
    linkPrecedence := LinkPrecedence.primary, createdAt := 0, updatedAt := 0,
    deletedAt := none }

/-- The store left by running inputA against the empty store. -/
def storeA : Store := { rows := [contactA], nextId := 2, now := 0 }

/-- The response of running inputA against the empty store. -/
def responseA : IdentifyResponse :=
  { primaryContactId := 1, emails := ["a"], phoneNumbers := ["1"],
    secondaryContactIds := [] }

/-- An older independent primary. -/
def primaryOld : Contact :=
  { id := 1, email := some "e1", phoneNumber := some "p1", linkedId := none,
    linkPrecedence := LinkPrecedence.primary, createdAt := 0, updatedAt := 0,
    deletedAt := none }

/-- A newer independent primary. -/
def primaryNew : Contact :=
  { id := 2, email := some "e2", phoneNumber := some "p2", linkedId := none,
    linkPrecedence := LinkPrecedence.primary, createdAt := 3, updatedAt := 3,
    deletedAt := none }

/-- A secondary linked to the newer primary. -/
def linkedSec : Contact :=
  { id := 3, email := none, phoneNumber := some "p2", linkedId := some 2,
    linkPrecedence := LinkPrecedence.secondary, createdAt := 4, updatedAt := 4,
    deletedAt := none }

/-- A store holding two independent clusters about to be merged. -/
def mergeStore : Store := { rows := [primaryOld, primaryNew, linkedSec], nextId := 4, now := 9 }

/-- A canonical primary that has a phone number but no email. -/
def noEmailPrimary : Contact :=
  { id := 1, email := none, phoneNumber := some "1", linkedId := none,
    linkPrecedence := LinkPrecedence.primary, createdAt := 0, updatedAt := 0,
    deletedAt := none }

/-- A secondary of noEmailPrimary that carries an email. -/
def emailSecondary : Contact :=
  { id := 2, email := some "a", phoneNumber := some "1", linkedId := some 1,
    linkPrecedence := LinkPrecedence.secondary, createdAt := 1, updatedAt := 1,
    deletedAt := none }

/-- A cluster whose primary has no email while a secondary does. -/
def c6cluster : List Contact := [noEmailPrimary, emailSecondary]

/-- The response the formatter produces for c6cluster. -/
def c6resp : IdentifyResponse :=
  { primaryContactId := 1, emails := ["a"], phoneNumbers := ["1"],
    secondaryContactIds := [2] }

/-- The flat invariant: no non-deleted secondary's linkedId is the id of a
secondary row. -/
def Flat (s : Store) : Prop :=
  ∀ c ∈ s.rows, c.deletedAt = none → c.linkPrecedence = LinkPrecedence.secondary →
    ∀ p ∈ s.rows, c.linkedId = some p.id → p.linkPrecedence = LinkPrecedence.primary

/-- Store well-formedness: ids are unique and below the next assigned id,
primaries carry no linkedId, and every non-deleted secondary links to an
existing non-deleted primary row. -/
def WF (s : Store) : Prop :=
  (s.rows.map Contact.id).Nodup ∧
  (∀ c ∈ s.rows, c.id < s.nextId) ∧
  (∀ c ∈ s.rows, c.linkPrecedence = LinkPrecedence.primary → c.linkedId = none) ∧
  (∀ c ∈ s.rows, c.deletedAt = none → c.linkPrecedence = LinkPrecedence.secondary →
    ∃ p ∈ s.rows, c.linkedId = some p.id ∧ p.deletedAt = none ∧
      p.linkPrecedence = LinkPrecedence.primary)

/-- What identify guarantees about its final store: the canonical primary is a
live primary row, the store is well-formed, every live row matching the
input is the canonical primary or points straight at it, a live row
matching the exact input exists, and re-formatting the canonical primary's
final cluster reproduces the response. -/
structure PostState (input : IdentifyInput) (r : IdentifyResponse)
    (s1 : Store) (canon : Contact) : Prop where
  canon_mem : canon ∈ s1.rows
  canon_live : canon.deletedAt = none
  canon_prim : canon.linkPrecedence = LinkPrecedence.primary
  wf : WF s1
  directed : ∀ c ∈ s1.rows, c.deletedAt = none →
    rowMatches input.email input.phoneNumber c = true →
    c.id = canon.id ∨ c.linkedId = some canon.id
  exact_row : ∃ ex ∈ s1.rows, ex.deletedAt = none ∧
    exactPred input.email input.phoneNumber ex = true
  fmt : formatResponse (fetchFinalCluster s1 canon.id) = Except.ok r

deriving instance DecidableEq for Except

instance (s : Store) : Decidable (WF s) := by
  unfold WF; infer_instance

instance (s : Store) : Decidable (Flat s) := by
  unfold Flat; infer_instance

instance : IsTotal Contact leCreatedAt :=
  ⟨fun a b => Nat.le_total a.createdAt b.createdAt⟩

instance : IsTrans Contact leCreatedAt :=
  ⟨fun _ _ _ h h2 => Nat.le_trans h h2⟩

instance : IsTotal Contact leId :=
  ⟨fun a b => Nat.le_total a.id b.id⟩

instance : IsTrans Contact leId :=
  ⟨fun _ _ _ h h2 => Nat.le_trans h h2⟩

lemma perm_sortByCreatedAt (l : List Contact) : List.Perm (sortByCreatedAt l) l :=
  List.perm_insertionSort leCreatedAt l

lemma mem_sortByCreatedAt {c : Contact} {l : List Contact} :
    c ∈ sortByCreatedAt l ↔ c ∈ l :=
  (perm_sortByCreatedAt l).mem_iff

lemma perm_sortById (l : List Contact) : List.Perm (sortById l) l :=
  List.perm_insertionSort leId l

lemma mem_sortById {c : Contact} {l : List Contact} :
    c ∈ sortById l ↔ c ∈ l :=
  (perm_sortById l).mem_iff

lemma sorted_sortByCreatedAt (l : List Contact) :
    List.Sorted leCreatedAt (sortByCreatedAt l) :=
  List.sorted_insertionSort leCreatedAt l

lemma sorted_sortById (l : List Contact) :
    List.Sorted leId (sortById l) :=
  List.sorted_insertionSort leId l

lemma sortByCreatedAt_head_min {l t : List Contact} {h : Contact}
    (heq : sortByCreatedAt l = h :: t) :
    h ∈ l ∧ ∀ x ∈ l, h.createdAt ≤ x.createdAt := by
  have hperm := perm_sortByCreatedAt l
  rw [heq] at hperm
  have hs := sorted_sortByCreatedAt l
  rw [heq] at hs
  refine ⟨hperm.mem_iff.mp (List.mem_cons_self h t), fun x hx => ?_⟩
  rcases List.mem_cons.mp (hperm.mem_iff.mpr hx) with hxh | hxt
  · exact le_of_eq (by rw [hxh])
  · exact List.rel_of_sorted_cons hs x hxt

lemma strTruthy_iff {e : Option String} :
    strTruthy e = true ↔ ∃ v, e = some v ∧ v ≠ "" := by
  cases e with
  | none => simp [strTruthy]
  | some v => simp [strTruthy]

lemma rowMatches_false_of_falsy {e p : Option String} (c : Contact)
    (he : strTruthy e = false) (hp : strTruthy p = false) :
    rowMatches e p c = false := by
  simp [rowMatches, he, hp]

lemma mem_findDirectMatches {s : Store} {e p : Option String} {c : Contact} :
    c ∈ findDirectMatches s e p ↔
      c ∈ s.rows ∧ c.deletedAt = none ∧ rowMatches e p c = true := by
  unfold findDirectMatches
  split
  · next hcond =>
    have he : strTruthy e = false := by
      cases hb : strTruthy e <;> simp [hb] at hcond ⊢
    have hp : strTruthy p = false := by
      cases hb : strTruthy p <;> simp [hb] at hcond ⊢
    simp [rowMatches_false_of_falsy c he hp]
  · rw [mem_sortByCreatedAt, List.mem_filter]
    simp only [Bool.and_eq_true, beq_iff_eq, and_assoc]

lemma mem_fetchCluster {s : Store} {ids : List Nat} {c : Contact} :
    c ∈ fetchCluster s ids ↔ c ∈ s.rows ∧ inCluster ids c = true := by
  unfold fetchCluster
  rw [mem_sortByCreatedAt, List.mem_filter]

lemma mem_fetchFinalCluster {s : Store} {pid : Nat} {c : Contact} :
    c ∈ fetchFinalCluster s pid ↔
      c ∈ s.rows ∧ c.deletedAt = none ∧ (c.id = pid ∨ c.linkedId = some pid) := by
  unfold fetchFinalCluster
  rw [mem_sortByCreatedAt, List.mem_filter]
  unfold inFinalCluster
  simp only [Bool.and_eq_true, Bool.or_eq_true, beq_iff_eq]
  tauto

lemma mem_electPrimaries {cluster : List Contact} {c : Contact} :
    c ∈ electPrimaries cluster ↔
      c ∈ cluster ∧ c.linkPrecedence = LinkPrecedence.primary := by
  unfold electPrimaries
  rw [mem_sortByCreatedAt, List.mem_filter]
  simp [isPrimaryRow]

lemma mem_insertId {acc : List Nat} {y x : Nat} :
    x ∈ insertId acc y ↔ x ∈ acc ∨ x = y := by
  unfold insertId
  split
  · next hmem =>
    constructor
    · exact Or.inl
    · rintro (h | rfl)
      · exact h
      · exact hmem
  · simp

lemma mem_addPrimaryId {acc : List Nat} {c : Contact} {x : Nat} :
    x ∈ addPrimaryId acc c ↔
      x ∈ acc ∨ (c.linkPrecedence = LinkPrecedence.primary ∧ x = c.id) ∨
        (c.linkPrecedence ≠ LinkPrecedence.primary ∧ c.linkedId = some x) := by
  unfold addPrimaryId
  split
  · next hp =>
    rw [mem_insertId]
    simp [hp]
  · next hp =>
    cases hl : c.linkedId with
    | none => simp [hp, hl]
    | some j =>
      rw [mem_insertId]
      simp [hp, hl, eq_comm]

lemma mem_foldl_addPrimaryId {seeds : List Contact} :
    ∀ {acc : List Nat} {x : Nat}, x ∈ seeds.foldl addPrimaryId acc ↔
      x ∈ acc ∨ ∃ c ∈ seeds,
        (c.linkPrecedence = LinkPrecedence.primary ∧ x = c.id) ∨
        (c.linkPrecedence ≠ LinkPrecedence.primary ∧ c.linkedId = some x) := by
  induction seeds with
  | nil => simp
  | cons d rest ih =>
    intro acc x
    rw [List.foldl_cons, ih, mem_addPrimaryId]
    simp only [List.mem_cons]
    constructor
    · rintro ((h | h | h) | ⟨c, hc, hor⟩)
      · exact Or.inl h
      · exact Or.inr ⟨d, Or.inl rfl, Or.inl h⟩
      · exact Or.inr ⟨d, Or.inl rfl, Or.inr h⟩
      · exact Or.inr ⟨c, Or.inr hc, hor⟩
    · rintro (h | ⟨c, (rfl | hc), hor⟩)
      · exact Or.inl (Or.inl h)
      · exact Or.inl (Or.inr hor)
      · exact Or.inr ⟨c, hc, hor⟩

lemma mem_collectPrimaryIds {seeds : List Contact} {x : Nat} :
    x ∈ collectPrimaryIds seeds ↔
      ∃ c ∈ seeds,
        (c.linkPrecedence = LinkPrecedence.primary ∧ x = c.id) ∨
        (c.linkPrecedence ≠ LinkPrecedence.primary ∧ c.linkedId = some x) := by
  unfold collectPrimaryIds
  rw [mem_foldl_addPrimaryId]
  simp

lemma addSeenValue_cases (acc : List String) (v : Option String) :
    addSeenValue acc v = acc ∨
      ∃ e, v = some e ∧ e ∉ acc ∧ addSeenValue acc v = acc ++ [e] := by
  cases v with
  | none => exact Or.inl rfl
  | some e =>
    by_cases h : e ≠ "" ∧ e ∉ acc
    · exact Or.inr ⟨e, rfl, h.2, by simp only [addSeenValue]; rw [if_pos h]⟩
    · exact Or.inl (by simp only [addSeenValue]; rw [if_neg h])

lemma foldl_addSeenValue_nodup (l : List (Option String)) :
    ∀ acc : List String, acc.Nodup → (l.foldl addSeenValue acc).Nodup := by
  induction l with
  | nil => exact fun acc h => h
  | cons v rest ih =>
    intro acc h
    rw [List.foldl_cons]
    apply ih
    rcases addSeenValue_cases acc v with heq | ⟨e, _, hnot, heq⟩
    · rw [heq]; exact h
    · rw [heq, ← List.concat_eq_append]
      exact h.concat hnot

lemma collectValues_nodup (l : List (Option String)) : (collectValues l).Nodup :=
  foldl_addSeenValue_nodup l [] List.nodup_nil

lemma foldl_addSeenValue_head (l : List (Option String)) :
    ∀ acc : List String, acc ≠ [] →
      (l.foldl addSeenValue acc).head? = acc.head? := by
  induction l with
  | nil => exact fun acc _ => rfl
  | cons v rest ih =>
    intro acc hne
    rw [List.foldl_cons]
    rcases addSeenValue_cases acc v with heq | ⟨e, _, _, heq⟩
    · rw [heq]; exact ih acc hne
    · rw [heq]
      cases acc with
      | nil => exact absurd rfl hne
      | cons a as =>
        rw [ih ((a :: as) ++ [e]) (by simp)]
        simp

lemma formatResponse_eq_ok {cl : List Contact} {p : Contact}
    (h : cl.find? isPrimaryRow = some p) :
    formatResponse cl = Except.ok
      { primaryContactId := p.id
        emails := collectValues (p.email :: (sortById (cl.filter isSecondaryRow)).map Contact.email)
        phoneNumbers :=
          collectValues (p.phoneNumber :: (sortById (cl.filter isSecondaryRow)).map Contact.phoneNumber)
        secondaryContactIds := (sortById (cl.filter isSecondaryRow)).map Contact.id } := by
  unfold formatResponse
  rw [h]

lemma formatResponse_eq_error {cl : List Contact}
    (h : cl.find? isPrimaryRow = none) :
    formatResponse cl = Except.error Fault.noPrimary := by
  unfold formatResponse
  rw [h]

lemma formatResponse_error_fault {cl : List Contact} {f : Fault}
    (h : formatResponse cl = Except.error f) : f = Fault.noPrimary := by
  unfold formatResponse at h
  cases hf : cl.find? isPrimaryRow with
  | none => rw [hf] at h; exact (Except.error.injEq _ _).mp h.symm
  | some p => rw [hf] at h; exact absurd h (by simp)

lemma formatResponse_isOk_of_primary {cl : List Contact} {c : Contact}
    (hc : c ∈ cl) (hp : c.linkPrecedence = LinkPrecedence.primary) :
    ∃ r, formatResponse cl = Except.ok r := by
  have : ∃ q, cl.find? isPrimaryRow = some q := by
    rw [← Option.isSome_iff_exists, List.find?_isSome]
    exact ⟨c, hc, by simp [isPrimaryRow, hp]⟩
  rcases this with ⟨q, hq⟩
  exact ⟨_, formatResponse_eq_ok hq⟩

lemma except_map_error_iff {α β γ : Type} {x : Except α β} {g : β → γ} {f : α} :
    x.map g = Except.error f ↔ x = Except.error f := by
  cases x <;> simp [Except.map]

lemma createPrimaryBranch_ne_validation (s : Store) (input : IdentifyInput) :
    createPrimaryBranch s input ≠ Except.error Fault.validation := by
  intro h
  simp only [createPrimaryBranch] at h
  rw [except_map_error_iff] at h
  exact Fault.noConfusion (formatResponse_error_fault h)

lemma mergePhase_ne_validation (s : Store) (input : IdentifyInput)
    (canonicalPrimary : Contact) (demoted : List Contact) :
    mergePhase s input canonicalPrimary demoted ≠ Except.error Fault.validation := by
  intro h
  simp only [mergePhase] at h
  split at h
  · rw [except_map_error_iff] at h
    exact Fault.noConfusion (formatResponse_error_fault h)
  · rw [except_map_error_iff] at h
    exact Fault.noConfusion (formatResponse_error_fault h)

lemma matchBranch_ne_validation (s : Store) (input : IdentifyInput)
    (directMatches : List Contact) :
    matchBranch s input directMatches ≠ Except.error Fault.validation := by
  intro h
  simp only [matchBranch] at h
  split at h
  · exact Fault.noConfusion ((Except.error.injEq _ _).mp h)
  · exact mergePhase_ne_validation _ _ _ _ h

lemma identifyTx_ne_validation (s : Store) (input : IdentifyInput) :
    identifyTx s input ≠ Except.error Fault.validation := by
  intro h
  simp only [identifyTx] at h
  split at h
  · exact createPrimaryBranch_ne_validation _ _ h
  · exact matchBranch_ne_validation _ _ _ h

lemma identify_of_falsy {s : Store} {input : IdentifyInput}
    (he : strTruthy input.email = false) (hp : strTruthy input.phoneNumber = false) :
    identify s input = Except.error Fault.validation := by
  unfold identify
  rw [he, hp]
  rfl

lemma identify_of_truthy {s : Store} {input : IdentifyInput}
    (h : (!strTruthy input.email && !strTruthy input.phoneNumber) = false) :
    identify s input = identifyTx s input := by
  unfold identify
  rw [h]
  rfl

/-- C8: identify raises the validation fault exactly when both identifying
fields are absent (falsy); since the guard runs before the transaction
body, a caller supplying at least one field never observes this fault, and
in the fault case the result is fixed independently of the store. -/
theorem c8_validation_fault_iff (s : Store) (input : IdentifyInput) :
    identify s input = Except.error Fault.validation ↔
      strTruthy input.email = false ∧ strTruthy input.phoneNumber = false := by
  constructor
  · intro h
    cases he : strTruthy input.email with
    | false =>
      cases hp : strTruthy input.phoneNumber with
      | false => exact ⟨rfl, rfl⟩
      | true =>
        rw [identify_of_truthy (by rw [he, hp]; rfl)] at h
        exact absurd h (identifyTx_ne_validation s input)
    | true =>
      rw [identify_of_truthy (by rw [he]; rfl)] at h
      exact absurd h (identifyTx_ne_validation s input)
  · rintro ⟨he, hp⟩
    exact identify_of_falsy he hp

/-- C8 witness: the guard fires on the empty input against any store, here the
empty store. -/
theorem c8_witness :
    identify emptyStore inputNone = Except.error Fault.validation :=
  (c8_validation_fault_iff emptyStore inputNone).mpr ⟨rfl, rfl⟩

/-- C9 counterexample: with an email present and an empty store the finder
still returns the empty set, so the empty set is not returned only when
both fields are absent. -/
theorem c9_counterexample :
    findDirectMatches emptyStore (some "a") none = [] ∧ strTruthy (some "a") = true := by
  constructor
  · rfl
  · rfl

/-- C9 (amended): the Direct Match Finder returns exactly the non-deleted rows
satisfying the OR-condition over the present fields, sorted ascending by
createdAt, and returns the empty set unconditionally whenever both fields
are absent (though a present-field query may also come back empty when
nothing matches). -/
theorem c9_direct_match_finder (s : Store) (e p : Option String) :
    (strTruthy e = false ∧ strTruthy p = false → findDirectMatches s e p = []) ∧
    (∀ c, c ∈ findDirectMatches s e p ↔
      c ∈ s.rows ∧ c.deletedAt = none ∧ rowMatches e p c = true) ∧
    List.Pairwise (fun a b => a.createdAt ≤ b.createdAt) (findDirectMatches s e p) := by
  refine ⟨?_, fun c => mem_findDirectMatches, ?_⟩
  · rintro ⟨he, hp⟩
    unfold findDirectMatches
    rw [he, hp]
    rfl
  · unfold findDirectMatches
    split
    · exact List.Pairwise.nil
    · exact sorted_sortByCreatedAt _

/-- C9 witness: the defensive branch at both fields absent. -/
theorem c9_witness : findDirectMatches emptyStore none none = [] :=
  (c9_direct_match_finder emptyStore none none).1 ⟨rfl, rfl⟩

/-- C5: for every cluster with distinct row ids handed to the formatter, the
secondary id list is strictly ascending, duplicate-free and never contains
the primary id, and the email and phone lists are duplicate-free. -/
theorem c5_formatter_set_properties (cluster : List Contact) (r : IdentifyResponse)
    (hids : (cluster.map Contact.id).Nodup)
    (hok : formatResponse cluster = Except.ok r) :
    List.Pairwise (fun a b => a < b) r.secondaryContactIds ∧
    r.secondaryContactIds.Nodup ∧
    r.primaryContactId ∉ r.secondaryContactIds ∧
    r.emails.Nodup ∧ r.phoneNumbers.Nodup := by
  cases hfind : cluster.find? isPrimaryRow with
  | none =>
    rw [formatResponse_eq_error hfind] at hok
    exact absurd hok (by simp)
  | some p =>
    rw [formatResponse_eq_ok hfind] at hok
    have hr := (Except.ok.injEq _ _).mp hok
    subst hr
    have hsub : (cluster.filter isSecondaryRow).Sublist cluster := List.filter_sublist _
    have hfilter_ids : ((cluster.filter isSecondaryRow).map Contact.id).Nodup :=
      List.Nodup.sublist (hsub.map Contact.id) hids
    have hperm : List.Perm (sortById (cluster.filter isSecondaryRow))
        (cluster.filter isSecondaryRow) := perm_sortById _
    have hnodup_ids : ((sortById (cluster.filter isSecondaryRow)).map Contact.id).Nodup :=
      ((hperm.map Contact.id).nodup_iff).mpr hfilter_ids
    have hsorted : List.Pairwise leId (sortById (cluster.filter isSecondaryRow)) :=
      sorted_sortById _
    have hle : List.Pairwise (fun a b : Nat => a ≤ b)
        ((sortById (cluster.filter isSecondaryRow)).map Contact.id) :=
      List.Pairwise.map Contact.id (fun a b h => h) hsorted
    have hlt : List.Pairwise (fun a b : Nat => a < b)
        ((sortById (cluster.filter isSecondaryRow)).map Contact.id) :=
      (hle.and hnodup_ids).imp fun h => lt_of_le_of_ne h.1 h.2
    have hp_mem : p ∈ cluster := List.mem_of_find?_eq_some hfind
    have hp_prim : p.linkPrecedence = LinkPrecedence.primary := by
      have := List.find?_some hfind
      simpa [isPrimaryRow] using this
    have hnotin : p.id ∉ (sortById (cluster.filter isSecondaryRow)).map Contact.id := by
      intro hmem
      rcases List.mem_map.mp hmem with ⟨c, hc, hcid⟩
      have hc2 := List.mem_filter.mp (mem_sortById.mp hc)
      have hcsec : c.linkPrecedence = LinkPrecedence.secondary := by
        simpa [isSecondaryRow] using hc2.2
      have hceq : c = p := List.inj_on_of_nodup_map hids hc2.1 hp_mem hcid
      rw [hceq, hp_prim] at hcsec
      exact LinkPrecedence.noConfusion hcsec
    exact ⟨hlt, hlt.imp (fun h => ne_of_lt h), hnotin,
      collectValues_nodup _, collectValues_nodup _⟩

/-- C5 witness: the formatter output for the two-member example cluster. -/
theorem c5_witness :
    List.Pairwise (fun a b => a < b) c6resp.secondaryContactIds ∧
    c6resp.secondaryContactIds.Nodup ∧
    c6resp.primaryContactId ∉ c6resp.secondaryContactIds ∧
    c6resp.emails.Nodup ∧ c6resp.phoneNumbers.Nodup :=
  c5_formatter_set_properties c6cluster c6resp (by decide) (by decide)

/-- C6 counterexample: a cluster whose canonical primary has no email while a
secondary does; the returned email list is non-empty but its first element
is not the primary's own email. -/
theorem c6_counterexample :
    formatResponse c6cluster = Except.ok c6resp ∧
    c6cluster.find? isPrimaryRow = some noEmailPrimary ∧
    c6resp.emails ≠ [] ∧
    c6resp.emails.head? ≠ noEmailPrimary.email := by
  refine ⟨by decide, by decide, by decide, by decide⟩

/-- C6 (amended): the value lists are built primary-value first and then the
secondaries' values in ascending-id order with order-preserving
de-duplication skipping nulls; consequently whenever the canonical
primary's own email (resp. phone number) is present and non-empty, the
corresponding list starts with exactly that value. -/
theorem c6_value_ordering (cluster : List Contact) (r : IdentifyResponse) (p : Contact)
    (hfind : cluster.find? isPrimaryRow = some p)
    (hok : formatResponse cluster = Except.ok r) :
    (∀ e, p.email = some e → e ≠ "" → r.emails.head? = some e) ∧
    (∀ v, p.phoneNumber = some v → v ≠ "" → r.phoneNumbers.head? = some v) ∧
    r.emails = collectValues
      (p.email :: (sortById (cluster.filter isSecondaryRow)).map Contact.email) ∧
    r.phoneNumbers = collectValues
      (p.phoneNumber :: (sortById (cluster.filter isSecondaryRow)).map Contact.phoneNumber) := by
  rw [formatResponse_eq_ok hfind] at hok
  have hr := (Except.ok.injEq _ _).mp hok
  subst hr
  refine ⟨?_, ?_, rfl, rfl⟩
  · intro e he hne
    show (collectValues
      (p.email :: (sortById (cluster.filter isSecondaryRow)).map Contact.email)).head? = some e
    rw [he]
    unfold collectValues
    rw [List.foldl_cons]
    have h1 : addSeenValue [] (some e) = [e] := by
      simp only [addSeenValue]
      rw [if_pos ⟨hne, List.not_mem_nil e⟩]
      rfl
    rw [h1, foldl_addSeenValue_head _ [e] (by simp)]
    rfl
  · intro v hv hne
    show (collectValues
      (p.phoneNumber :: (sortById (cluster.filter isSecondaryRow)).map Contact.phoneNumber)).head? = some v
    rw [hv]
    unfold collectValues
    rw [List.foldl_cons]
    have h1 : addSeenValue [] (some v) = [v] := by
      simp only [addSeenValue]
      rw [if_pos ⟨hne, List.not_mem_nil v⟩]
      rfl
    rw [h1, foldl_addSeenValue_head _ [v] (by simp)]
    rfl

/-- C6 witness: a primary owning both values heads both lists. -/
theorem c6_witness :
    responseA.emails.head? = some "a" ∧ responseA.phoneNumbers.head? = some "1" :=
  ⟨(c6_value_ordering [contactA] responseA contactA (by decide) (by decide)).1
      "a" rfl (by decide),
    (c6_value_ordering [contactA] responseA contactA (by decide) (by decide)).2.1
      "1" rfl (by decide)⟩

lemma elect_head_eq {cluster : List Contact} {p : Contact}
    (hdist : ∀ a ∈ cluster, ∀ b ∈ cluster,
      a.linkPrecedence = LinkPrecedence.primary →
      b.linkPrecedence = LinkPrecedence.primary → a.createdAt = b.createdAt → a = b)
    (hp : p ∈ cluster) (hprim : p.linkPrecedence = LinkPrecedence.primary)
    (hmin : ∀ q ∈ cluster, q.linkPrecedence = LinkPrecedence.primary →
      p.createdAt ≤ q.createdAt) :
    (electPrimaries cluster).head? = some p := by
  cases heq : electPrimaries cluster with
  | nil =>
    have hmem : p ∈ electPrimaries cluster := mem_electPrimaries.mpr ⟨hp, hprim⟩
    rw [heq] at hmem
    cases hmem
  | cons h t =>
    have heq2 : sortByCreatedAt (cluster.filter isPrimaryRow) = h :: t := heq
    obtain ⟨hh_mem, hh_min⟩ := sortByCreatedAt_head_min heq2
    have hh_cluster := List.mem_filter.mp hh_mem
    have hh_prim : h.linkPrecedence = LinkPrecedence.primary := by
      simpa [isPrimaryRow] using hh_cluster.2
    have hple : p.createdAt ≤ h.createdAt := hmin h hh_cluster.1 hh_prim
    have hhle : h.createdAt ≤ p.createdAt :=
      hh_min p (List.mem_filter.mpr ⟨hp, by simp [isPrimaryRow, hprim]⟩)
    have : h = p := hdist h hh_cluster.1 p hp hh_prim hprim (Nat.le_antisymm hhle hple)
    rw [this]
    rfl

/-- C2: the canonical primary elected for a cluster is the head of the
primary-filtered, createdAt-ascending sort; when the cluster's primaries
have pairwise distinct creation times it is exactly the primary with the
minimal createdAt. -/
theorem c2_canonical_election (cluster : List Contact) (p : Contact)
    (hdist : ∀ a ∈ cluster, ∀ b ∈ cluster,
      a.linkPrecedence = LinkPrecedence.primary →
      b.linkPrecedence = LinkPrecedence.primary → a.createdAt = b.createdAt → a = b)
    (hp : p ∈ cluster) (hprim : p.linkPrecedence = LinkPrecedence.primary)
    (hmin : ∀ q ∈ cluster, q.linkPrecedence = LinkPrecedence.primary →
      p.createdAt ≤ q.createdAt) :
    (electPrimaries cluster).head? = some p :=
  elect_head_eq hdist hp hprim hmin

/-- C2 witness: of two primaries with distinct creation times the older one is
elected, regardless of the scan order. -/
theorem c2_witness :
    (electPrimaries [primaryNew, primaryOld]).head? = some primaryOld :=
  c2_canonical_election [primaryNew, primaryOld] primaryOld
    (by decide) (by decide) (by decide) (by decide)

/-- C7: when the primaries of a fetched cluster have pairwise distinct
creation times, the election result is invariant under any permutation of
the cluster list, so the canonical primary does not depend on the order in
which the matched and fetched contacts are scanned. -/
theorem c7_election_order_invariant (l l2 : List Contact)
    (hperm : List.Perm l2 l)
    (hdist : ∀ a ∈ l, ∀ b ∈ l,
      a.linkPrecedence = LinkPrecedence.primary →
      b.linkPrecedence = LinkPrecedence.primary → a.createdAt = b.createdAt → a = b) :
    (electPrimaries l2).head? = (electPrimaries l).head? := by
  cases heq : electPrimaries l with
  | nil =>
    cases heq2 : electPrimaries l2 with
    | nil => rfl
    | cons h t =>
      have hh : h ∈ electPrimaries l2 := by
        rw [heq2]
        exact List.mem_cons_self h t
      obtain ⟨hh2, hhp⟩ := mem_electPrimaries.mp hh
      have : h ∈ electPrimaries l := mem_electPrimaries.mpr ⟨hperm.mem_iff.mp hh2, hhp⟩
      rw [heq] at this
      cases this
  | cons h t =>
    have heq2 : sortByCreatedAt (l.filter isPrimaryRow) = h :: t := heq
    obtain ⟨hh_mem, hh_min⟩ := sortByCreatedAt_head_min heq2
    have hh_cluster := List.mem_filter.mp hh_mem
    have hh_prim : h.linkPrecedence = LinkPrecedence.primary := by
      simpa [isPrimaryRow] using hh_cluster.2
    have hdist2 : ∀ a ∈ l2, ∀ b ∈ l2,
        a.linkPrecedence = LinkPrecedence.primary →
        b.linkPrecedence = LinkPrecedence.primary → a.createdAt = b.createdAt → a = b :=
      fun a ha b hb hap hbp hab =>
        hdist a (hperm.mem_iff.mp ha) b (hperm.mem_iff.mp hb) hap hbp hab
    have hmin2 : ∀ q ∈ l2, q.linkPrecedence = LinkPrecedence.primary →
        h.createdAt ≤ q.createdAt := by
      intro q hq hqp
      exact hh_min q (List.mem_filter.mpr ⟨hperm.mem_iff.mp hq, by simp [isPrimaryRow, hqp]⟩)
    rw [elect_head_eq hdist2 (hperm.mem_iff.mpr hh_cluster.1) hh_prim hmin2]
    rfl

/-- C7 witness: the two scan orders of two distinct-age primaries elect the
same canonical primary. -/
theorem c7_witness :
    (electPrimaries [primaryNew, primaryOld]).head? =
      (electPrimaries [primaryOld, primaryNew]).head? :=
  c7_election_order_invariant [primaryOld, primaryNew] [primaryNew, primaryOld]
    (by decide) (by decide)

lemma reparentRow_id (d k n : Nat) (c : Contact) : (reparentRow d k n c).id = c.id := by
  unfold reparentRow
  split <;> rfl

lemma reparentRow_precedence (d k n : Nat) (c : Contact) :
    (reparentRow d k n c).linkPrecedence = c.linkPrecedence := by
  unfold reparentRow
  split <;> rfl

lemma reparentRow_deletedAt (d k n : Nat) (c : Contact) :
    (reparentRow d k n c).deletedAt = c.deletedAt := by
  unfold reparentRow
  split <;> rfl

lemma demoteRow_id (d k n : Nat) (c : Contact) : (demoteRow d k n c).id = c.id := by
  unfold demoteRow
  split <;> rfl

lemma demoteRow_deletedAt (d k n : Nat) (c : Contact) :
    (demoteRow d k n c).deletedAt = c.deletedAt := by
  unfold demoteRow
  split <;> rfl

lemma hk_reparent {s : Store} {d k : Nat}
    (hk : ∀ p ∈ s.rows, p.id = k → p.linkPrecedence = LinkPrecedence.primary) :
    ∀ p ∈ (reparentSecondaries s d k).rows, p.id = k →
      p.linkPrecedence = LinkPrecedence.primary := by
  intro p hp hpk
  simp only [reparentSecondaries] at hp
  rcases List.mem_map.mp hp with ⟨p0, hp0, rfl⟩
  rw [reparentRow_id] at hpk
  rw [reparentRow_precedence]
  exact hk p0 hp0 hpk

lemma hk_demote {s : Store} {d k : Nat} (hdk : d ≠ k)
    (hk : ∀ p ∈ s.rows, p.id = k → p.linkPrecedence = LinkPrecedence.primary) :
    ∀ p ∈ (demoteToSecondary s d k).rows, p.id = k →
      p.linkPrecedence = LinkPrecedence.primary := by
  intro p hp hpk
  simp only [demoteToSecondary] at hp
  rcases List.mem_map.mp hp with ⟨p0, hp0, rfl⟩
  rw [demoteRow_id] at hpk
  have hne : p0.id ≠ d := by
    rw [hpk]
    exact fun h => hdk h.symm
  have : demoteRow d k s.now p0 = p0 := by
    unfold demoteRow
    rw [if_neg hne]
  rw [this]
  exact hk p0 hp0 hpk

lemma flat_reparent {s : Store} {d k : Nat} (hflat : Flat s)
    (hk : ∀ p ∈ s.rows, p.id = k → p.linkPrecedence = LinkPrecedence.primary) :
    Flat (reparentSecondaries s d k) := by
  intro c hc hdel hsec p hp hlink
  simp only [reparentSecondaries] at hc hp
  rcases List.mem_map.mp hc with ⟨c0, hc0, rfl⟩
  rcases List.mem_map.mp hp with ⟨p0, hp0, rfl⟩
  rw [reparentRow_id] at hlink
  rw [reparentRow_precedence]
  rw [reparentRow_deletedAt] at hdel
  rw [reparentRow_precedence] at hsec
  by_cases hcond : c0.linkedId = some d ∧ c0.deletedAt = none
  · have hlid : (reparentRow d k s.now c0).linkedId = some k := by
      unfold reparentRow
      rw [if_pos hcond]
    rw [hlid] at hlink
    exact hk p0 hp0 ((Option.some.injEq _ _).mp hlink).symm
  · have hceq : reparentRow d k s.now c0 = c0 := by
      unfold reparentRow
      rw [if_neg hcond]
    rw [hceq] at hlink
    exact hflat c0 hc0 hdel hsec p0 hp0 hlink

lemma no_link_after_reparent {s : Store} {d k : Nat} (hdk : d ≠ k) :
    ∀ c ∈ (reparentSecondaries s d k).rows, c.deletedAt = none →
      c.linkedId ≠ some d := by
  intro c hc hdel
  simp only [reparentSecondaries] at hc
  rcases List.mem_map.mp hc with ⟨c0, hc0, rfl⟩
  rw [reparentRow_deletedAt] at hdel
  by_cases hcond : c0.linkedId = some d ∧ c0.deletedAt = none
  · have : (reparentRow d k s.now c0).linkedId = some k := by
      unfold reparentRow
      rw [if_pos hcond]
    rw [this]
    intro h
    exact hdk ((Option.some.injEq _ _).mp h).symm
  · have hceq : reparentRow d k s.now c0 = c0 := by
      unfold reparentRow
      rw [if_neg hcond]
    rw [hceq]
    intro h
    exact hcond ⟨h, hdel⟩

lemma flat_demote_after_reparent {s1 : Store} {d k : Nat} (hflat : Flat s1)
    (hnolink : ∀ c ∈ s1.rows, c.deletedAt = none → c.linkedId ≠ some d)
    (hk : ∀ p ∈ s1.rows, p.id = k → p.linkPrecedence = LinkPrecedence.primary)
    (hdk : d ≠ k) :
    Flat (demoteToSecondary s1 d k) := by
  intro c hc hdel hsec p hp hlink
  simp only [demoteToSecondary] at hc hp
  rcases List.mem_map.mp hc with ⟨c0, hc0, rfl⟩
  rcases List.mem_map.mp hp with ⟨p0, hp0, rfl⟩
  rw [demoteRow_id] at hlink
  rw [demoteRow_deletedAt] at hdel
  by_cases hcid : c0.id = d
  · have hlid : (demoteRow d k s1.now c0).linkedId = some k := by
      unfold demoteRow
      rw [if_pos hcid]
    rw [hlid] at hlink
    have hpk : p0.id = k := ((Option.some.injEq _ _).mp hlink).symm
    have hpne : p0.id ≠ d := by
      rw [hpk]
      exact fun h => hdk h.symm
    have hpeq : demoteRow d k s1.now p0 = p0 := by
      unfold demoteRow
      rw [if_neg hpne]
    rw [hpeq]
    exact hk p0 hp0 hpk
  · have hceq : demoteRow d k s1.now c0 = c0 := by
      unfold demoteRow
      rw [if_neg hcid]
    rw [hceq] at hlink hsec
    by_cases hpid : p0.id = d
    · rw [hpid] at hlink
      exact absurd hlink (hnolink c0 hc0 hdel)
    · have hpeq : demoteRow d k s1.now p0 = p0 := by
        unfold demoteRow
        rw [if_neg hpid]
      rw [hpeq]
      exact hflat c0 hc0 hdel hsec p0 hp0 hlink

/-- C1: the merge loop handles every demoted primary by re-parenting its
children before demoting it, so for any list of demoted ids not containing
the canonical primary id, and any merge order, every store state reached
after each single write of the loop still satisfies the flat invariant:
no non-deleted secondary's linkedId names a secondary row, every secondary
points directly at a primary. -/
theorem c1_flat_at_every_write (s : Store) (canonId : Nat) (ds : List Nat)
    (hflat : Flat s)
    (hk : ∀ p ∈ s.rows, p.id = canonId → p.linkPrecedence = LinkPrecedence.primary)
    (hnot : canonId ∉ ds) :
    ∀ t ∈ mergeTrace canonId s ds, Flat t := by
  induction ds generalizing s with
  | nil =>
    intro t ht
    simp only [mergeTrace] at ht
    cases ht
  | cons d rest ih =>
    have hdk : d ≠ canonId := fun h => hnot (h ▸ List.mem_cons_self d rest)
    have hrest : canonId ∉ rest := fun h => hnot (List.mem_cons_of_mem d h)
    intro t ht
    simp only [mergeTrace] at ht
    have hflat1 : Flat (reparentSecondaries s d canonId) := flat_reparent hflat hk
    have hk1 := hk_reparent (d := d) hk
    have hnolink := no_link_after_reparent (s := s) (d := d) (k := canonId) hdk
    have hflat2 : Flat (demoteToSecondary (reparentSecondaries s d canonId) d canonId) :=
      flat_demote_after_reparent hflat1 hnolink hk1 hdk
    have hk2 := hk_demote (s := reparentSecondaries s d canonId) hdk hk1
    rcases List.mem_cons.mp ht with rfl | ht2
    · exact hflat1
    · rcases List.mem_cons.mp ht2 with rfl | ht3
      · exact hflat2
      · exact ih _ hflat2 hk2 hrest t ht3

/-- C1 witness: the state after the single merge step on the concrete
two-cluster store keeps the flat invariant; its predecessor state inside
the trace is covered by the same application. -/
theorem c1_witness : Flat (mergeStep mergeStore 2 1) :=
  c1_flat_at_every_write mergeStore 1 [2] (by decide) (by decide) (by decide)
    (mergeStep mergeStore 2 1) (by decide)

lemma collectValues_single {v : Option String} (h : ∀ e, v = some e → e ≠ "") :
    collectValues [v] = v.toList := by
  cases v with
  | none => rfl
  | some e =>
    have hne := h e rfl
    show addSeenValue [] (some e) = [e]
    simp only [addSeenValue]
    rw [if_pos ⟨hne, List.not_mem_nil e⟩]
    rfl

lemma identifyTx_of_no_match {s : Store} {input : IdentifyInput}
    (hdm : findDirectMatches s input.email input.phoneNumber = []) :
    identifyTx s input = createPrimaryBranch s input := by
  unfold identifyTx
  rw [hdm]
  rfl

/-- C4: on an input whose present fields are non-empty, against a store where
no non-deleted row carries the given email or phone, identify creates
exactly one new contact, a primary with null linkedId, and answers with
that contact as the sole cluster member: its id, exactly the non-null
input values, and no secondaries. -/
theorem c4_new_identity (s : Store) (input : IdentifyInput)
    (hemail : ∀ e, input.email = some e → e ≠ "")
    (hphone : ∀ v, input.phoneNumber = some v → v ≠ "")
    (hsome : input.email ≠ none ∨ input.phoneNumber ≠ none)
    (hno : ∀ c ∈ s.rows, c.deletedAt = none →
      (∀ e, input.email = some e → c.email ≠ some e) ∧
      (∀ v, input.phoneNumber = some v → c.phoneNumber ≠ some v)) :
    identify s input = Except.ok
      ({ primaryContactId := (newPrimaryContact s input).id,
         emails := input.email.toList,
         phoneNumbers := input.phoneNumber.toList,
         secondaryContactIds := [] },
       { rows := s.rows ++ [newPrimaryContact s input],
         nextId := s.nextId + 1, now := s.now }) ∧
    (newPrimaryContact s input).linkPrecedence = LinkPrecedence.primary ∧
    (newPrimaryContact s input).linkedId = none := by
  have hcond : (!strTruthy input.email && !strTruthy input.phoneNumber) = false := by
    rcases hsome with h | h
    · cases hE : input.email with
      | none => exact absurd hE h
      | some e => simp [strTruthy, hemail e hE]
    · cases hP : input.phoneNumber with
      | none => exact absurd hP h
      | some v => simp [strTruthy, hphone v hP]
  have hdm : findDirectMatches s input.email input.phoneNumber = [] := by
    rw [List.eq_nil_iff_forall_not_mem]
    intro c hc
    obtain ⟨hcs, hdel, hmatch⟩ := mem_findDirectMatches.mp hc
    rcases Bool.or_eq_true_iff.mp hmatch with hm | hm
    · obtain ⟨ht, heq⟩ := Bool.and_eq_true_iff.mp hm
      obtain ⟨e, hE, _⟩ := strTruthy_iff.mp ht
      rw [hE] at heq
      exact (hno c hcs hdel).1 e hE (by rwa [beq_iff_eq] at heq)
    · obtain ⟨ht, heq⟩ := Bool.and_eq_true_iff.mp hm
      obtain ⟨v, hP, _⟩ := strTruthy_iff.mp ht
      rw [hP] at heq
      exact (hno c hcs hdel).2 v hP (by rwa [beq_iff_eq] at heq)
  refine ⟨?_, rfl, rfl⟩
  rw [identify_of_truthy hcond, identifyTx_of_no_match hdm]
  have hfind : [newPrimaryContact s input].find? isPrimaryRow = some (newPrimaryContact s input) := rfl
  have hfmt := formatResponse_eq_ok hfind
  have hsecs : sortById ([newPrimaryContact s input].filter isSecondaryRow) = [] := rfl
  rw [hsecs] at hfmt
  simp only [List.map_nil] at hfmt
  have he2 : (newPrimaryContact s input).email = input.email := rfl
  have hp2 : (newPrimaryContact s input).phoneNumber = input.phoneNumber := rfl
  rw [he2, hp2, collectValues_single hemail, collectValues_single hphone] at hfmt
  have hstep : createPrimaryBranch s input =
      (formatResponse [newPrimaryContact s input]).map
        (fun r => (r, ({ rows := s.rows ++ [newPrimaryContact s input],
                         nextId := s.nextId + 1, now := s.now } : Store))) := rfl
  rw [hstep, hfmt]
  rfl

/-- C4 witness: the empty store with both fields present. -/
theorem c4_witness :
    identify emptyStore inputA = Except.ok
      ({ primaryContactId := (newPrimaryContact emptyStore inputA).id,
         emails := inputA.email.toList,
         phoneNumbers := inputA.phoneNumber.toList,
         secondaryContactIds := [] },
       { rows := emptyStore.rows ++ [newPrimaryContact emptyStore inputA],
         nextId := emptyStore.nextId + 1, now := emptyStore.now }) ∧
    (newPrimaryContact emptyStore inputA).linkPrecedence = LinkPrecedence.primary ∧
    (newPrimaryContact emptyStore inputA).linkedId = none :=
  c4_new_identity emptyStore inputA
    (by intro e he; cases he; decide)
    (by intro v hv; cases hv; decide)
    (Or.inl (by decide))
    (by intro c hc; cases hc)

lemma reparentRow_email (d k n : Nat) (c : Contact) :
    (reparentRow d k n c).email = c.email := by
  unfold reparentRow
  split <;> rfl

lemma reparentRow_phoneNumber (d k n : Nat) (c : Contact) :
    (reparentRow d k n c).phoneNumber = c.phoneNumber := by
  unfold reparentRow
  split <;> rfl

lemma reparentRow_createdAt (d k n : Nat) (c : Contact) :
    (reparentRow d k n c).createdAt = c.createdAt := by
  unfold reparentRow
  split <;> rfl

lemma demoteRow_email (d k n : Nat) (c : Contact) :
    (demoteRow d k n c).email = c.email := by
  unfold demoteRow
  split <;> rfl

lemma demoteRow_phoneNumber (d k n : Nat) (c : Contact) :
    (demoteRow d k n c).phoneNumber = c.phoneNumber := by
  unfold demoteRow
  split <;> rfl

lemma demoteRow_createdAt (d k n : Nat) (c : Contact) :
    (demoteRow d k n c).createdAt = c.createdAt := by
  unfold demoteRow
  split <;> rfl

lemma mergeRows_id (k n : Nat) (ds : List Nat) (c : Contact) :
    (mergeRows k n ds c).id = c.id := by
  induction ds generalizing c with
  | nil => rfl
  | cons d rest ih =>
    show (mergeRows k n rest _).id = _
    rw [ih, demoteRow_id, reparentRow_id]

lemma mergeRows_email (k n : Nat) (ds : List Nat) (c : Contact) :
    (mergeRows k n ds c).email = c.email := by
  induction ds generalizing c with
  | nil => rfl
  | cons d rest ih =>
    show (mergeRows k n rest _).email = _
    rw [ih, demoteRow_email, reparentRow_email]

lemma mergeRows_phoneNumber (k n : Nat) (ds : List Nat) (c : Contact) :
    (mergeRows k n ds c).phoneNumber = c.phoneNumber := by
  induction ds generalizing c with
  | nil => rfl
  | cons d rest ih =>
    show (mergeRows k n rest _).phoneNumber = _
    rw [ih, demoteRow_phoneNumber, reparentRow_phoneNumber]

lemma mergeRows_createdAt (k n : Nat) (ds : List Nat) (c : Contact) :
    (mergeRows k n ds c).createdAt = c.createdAt := by
  induction ds generalizing c with
  | nil => rfl
  | cons d rest ih =>
    show (mergeRows k n rest _).createdAt = _
    rw [ih, demoteRow_createdAt, reparentRow_createdAt]

lemma mergeRows_deletedAt (k n : Nat) (ds : List Nat) (c : Contact) :
    (mergeRows k n ds c).deletedAt = c.deletedAt := by
  induction ds generalizing c with
  | nil => rfl
  | cons d rest ih =>
    show (mergeRows k n rest _).deletedAt = _
    rw [ih, demoteRow_deletedAt, reparentRow_deletedAt]

lemma mergeRows_untouched (k n : Nat) (ds : List Nat) (c : Contact)
    (hid : c.id ∉ ds) (hnol : ∀ d ∈ ds, c.linkedId ≠ some d) :
    mergeRows k n ds c = c := by
  induction ds with
  | nil => rfl
  | cons d rest ih =>
    have h1 : reparentRow d k n c = c := by
      unfold reparentRow
      rw [if_neg]
      intro h
      exact hnol d (List.mem_cons_self d rest) h.1
    have h2 : demoteRow d k n c = c := by
      unfold demoteRow
      rw [if_neg]
      intro h
      exact hid (h ▸ List.mem_cons_self d rest)
    show mergeRows k n rest (demoteRow d k n (reparentRow d k n c)) = c
    rw [h1, h2]
    exact ih (fun h => hid (List.mem_cons_of_mem d h))
      (fun e he => hnol e (List.mem_cons_of_mem d he))

lemma mergeRows_sec (k n : Nat) {ds : List Nat} {c : Contact} {j : Nat}
    (hdel : c.deletedAt = none) (hid : c.id ∉ ds) (hcan : k ∉ ds)
    (hj : c.linkedId = some j) :
    mergeRows k n ds c =
      if j ∈ ds then { c with linkedId := some k, updatedAt := n } else c := by
  induction ds with
  | nil => rfl
  | cons d rest ih =>
    have hidr : c.id ∉ rest := fun h => hid (List.mem_cons_of_mem d h)
    have hcanr : k ∉ rest := fun h => hcan (List.mem_cons_of_mem d h)
    by_cases hjd : j = d
    · subst hjd
      have h1 : reparentRow j k n c = { c with linkedId := some k, updatedAt := n } := by
        unfold reparentRow
        rw [if_pos ⟨hj, hdel⟩]
      have h2 : demoteRow j k n { c with linkedId := some k, updatedAt := n } =
          { c with linkedId := some k, updatedAt := n } := by
        unfold demoteRow
        rw [if_neg]
        show ¬c.id = j
        intro h
        exact hid (h ▸ List.mem_cons_self j rest)
      show mergeRows k n rest (demoteRow j k n (reparentRow j k n c)) = _
      rw [h1, h2]
      have h3 := mergeRows_untouched k n rest
        { c with linkedId := some k, updatedAt := n } hidr
        (fun e he hsome => by
          have h4 : (some k : Option Nat) = some e := hsome
          exact hcanr (((Option.some.injEq _ _).mp h4) ▸ he))
      rw [h3, if_pos (List.mem_cons_self j rest)]
    · have h1 : reparentRow d k n c = c := by
        unfold reparentRow
        rw [if_neg]
        intro h
        rw [hj] at h
        exact hjd ((Option.some.injEq _ _).mp h.1)
      have h2 : demoteRow d k n c = c := by
        unfold demoteRow
        rw [if_neg]
        intro h
        exact hid (h ▸ List.mem_cons_self d rest)
      show mergeRows k n rest (demoteRow d k n (reparentRow d k n c)) = _
      rw [h1, h2, ih hidr hcanr]
      by_cases hjr : j ∈ rest
      · rw [if_pos hjr, if_pos (List.mem_cons_of_mem d hjr)]
      · rw [if_neg hjr, if_neg (fun h => by
          rcases List.mem_cons.mp h with h1 | h2
          · exact hjd h1
          · exact hjr h2)]

lemma mergeRows_prim (k n : Nat) {ds : List Nat} {c : Contact}
    (hlid : c.linkedId = none) (hcan : k ∉ ds) (hnd : ds.Nodup) :
    mergeRows k n ds c =
      if c.id ∈ ds then
        { c with linkPrecedence := LinkPrecedence.secondary,
                 linkedId := some k, updatedAt := n }
      else c := by
  induction ds with
  | nil => rfl
  | cons d rest ih =>
    have hcanr : k ∉ rest := fun h => hcan (List.mem_cons_of_mem d h)
    have hndr : rest.Nodup := (List.nodup_cons.mp hnd).2
    have hdnr : d ∉ rest := (List.nodup_cons.mp hnd).1
    have h1 : reparentRow d k n c = c := by
      unfold reparentRow
      rw [if_neg]
      intro h
      rw [hlid] at h
      exact Option.noConfusion h.1
    by_cases hcd : c.id = d
    · have h2 : demoteRow d k n c =
          { c with linkPrecedence := LinkPrecedence.secondary,
                   linkedId := some k, updatedAt := n } := by
        unfold demoteRow
        rw [if_pos hcd]
      show mergeRows k n rest (demoteRow d k n (reparentRow d k n c)) = _
      rw [h1, h2]
      have h3 := mergeRows_untouched k n rest
        { c with linkPrecedence := LinkPrecedence.secondary,
                 linkedId := some k, updatedAt := n }
        (by show c.id ∉ rest; rw [hcd]; exact hdnr)
        (fun e he hsome => by
          have h4 : (some k : Option Nat) = some e := hsome
          exact hcanr (((Option.some.injEq _ _).mp h4) ▸ he))
      rw [h3, if_pos (hcd ▸ List.mem_cons_self d rest)]
    · have h2 : demoteRow d k n c = c := by
        unfold demoteRow
        rw [if_neg hcd]
      show mergeRows k n rest (demoteRow d k n (reparentRow d k n c)) = _
      rw [h1, h2, ih hcanr hndr]
      by_cases hcr : c.id ∈ rest
      · rw [if_pos hcr, if_pos (List.mem_cons_of_mem d hcr)]
      · rw [if_neg hcr, if_neg (fun h => by
          rcases List.mem_cons.mp h with h1 | h2
          · exact hcd h1
          · exact hcr h2)]

lemma mergeRows_primary_of {k n : Nat} {ds : List Nat} {c : Contact}
    (h : (mergeRows k n ds c).linkPrecedence = LinkPrecedence.primary) :
    c.linkPrecedence = LinkPrecedence.primary ∧ c.id ∉ ds := by
  induction ds generalizing c with
  | nil => exact ⟨h, fun hmem => List.not_mem_nil c.id hmem⟩
  | cons d rest ih =>
    have h2 : (mergeRows k n rest (demoteRow d k n (reparentRow d k n c))).linkPrecedence
        = LinkPrecedence.primary := h
    obtain ⟨hp, hnr⟩ := ih h2
    by_cases hcd : c.id = d
    · exfalso
      have : (demoteRow d k n (reparentRow d k n c)).linkPrecedence =
          LinkPrecedence.secondary := by
        unfold demoteRow
        rw [if_pos (by rw [reparentRow_id]; exact hcd)]
      rw [this] at hp
      exact LinkPrecedence.noConfusion hp
    · have hdem : demoteRow d k n (reparentRow d k n c) = reparentRow d k n c := by
        unfold demoteRow
        rw [if_neg (by rw [reparentRow_id]; exact hcd)]
      rw [hdem, reparentRow_precedence] at hp
      rw [hdem, reparentRow_id] at hnr
      exact ⟨hp, fun hmem => by
        rcases List.mem_cons.mp hmem with h1 | h2
        · exact hcd h1
        · exact hnr h2⟩

lemma mergeStep_rows (s : Store) (d k : Nat) :
    (mergeStep s d k).rows =
      s.rows.map (fun c => demoteRow d k s.now (reparentRow d k s.now c)) := by
  unfold mergeStep demoteToSecondary reparentSecondaries
  simp [List.map_map]

lemma mergeStep_now (s : Store) (d k : Nat) : (mergeStep s d k).now = s.now := rfl

lemma mergeStep_nextId (s : Store) (d k : Nat) : (mergeStep s d k).nextId = s.nextId := rfl

lemma runMerges_now (k : Nat) (ds : List Nat) (s : Store) :
    (runMerges k s ds).now = s.now := by
  induction ds generalizing s with
  | nil => rfl
  | cons d rest ih =>
    show (runMerges k (mergeStep s d k) rest).now = s.now
    rw [ih, mergeStep_now]

lemma runMerges_nextId (k : Nat) (ds : List Nat) (s : Store) :
    (runMerges k s ds).nextId = s.nextId := by
  induction ds generalizing s with
  | nil => rfl
  | cons d rest ih =>
    show (runMerges k (mergeStep s d k) rest).nextId = s.nextId
    rw [ih, mergeStep_nextId]

lemma runMerges_rows (k : Nat) (ds : List Nat) (s : Store) :
    (runMerges k s ds).rows = s.rows.map (mergeRows k s.now ds) := by
  induction ds generalizing s with
  | nil =>
    show s.rows = s.rows.map (mergeRows k s.now [])
    rw [show s.rows.map (mergeRows k s.now []) = s.rows.map id from
      List.map_congr_left fun c _ => rfl]
    rw [List.map_id]
  | cons d rest ih =>
    show (runMerges k (mergeStep s d k) rest).rows = _
    rw [ih, mergeStep_rows, List.map_map, mergeStep_now]
    rfl

lemma exactPred_self {e p : Option String} {c : Contact}
    (hcond : (!strTruthy e && !strTruthy p) = false)
    (he : c.email = e) (hp : c.phoneNumber = p) :
    exactPred e p c = true := by
  subst he
  subst hp
  unfold exactPred
  cases hE : strTruthy c.email <;> cases hP : strTruthy c.phoneNumber
  · rw [hE, hP] at hcond
    simp at hcond
  · simp [hE, hP]
  · simp [hE, hP]
  · simp [hE, hP]

lemma rowMatches_of_exactPred {e p : Option String} {c : Contact}
    (h : exactPred e p c = true) : rowMatches e p c = true := by
  unfold exactPred at h
  unfold rowMatches
  cases hE : strTruthy e <;> cases hP : strTruthy p <;> rw [hE, hP] at h
  · simp at h
  · simp at h ⊢
    exact h
  · simp at h ⊢
    exact h
  · simp at h ⊢
    exact Or.inl h.1

lemma findExactMatch_eq_some {s : Store} {e p : Option String} {ex : Contact}
    (h : findExactMatch s e p = some ex) :
    ex ∈ s.rows ∧ ex.deletedAt = none ∧ exactPred e p ex = true := by
  unfold findExactMatch at h
  split at h
  · exact Option.noConfusion h
  · have h1 := List.mem_of_find?_eq_some h
    have h2 := List.find?_some h
    simp only [Bool.and_eq_true, beq_iff_eq] at h2
    exact ⟨h1, h2.1, h2.2⟩

lemma findExactMatch_isSome {s : Store} {e p : Option String} {ex : Contact}
    (hcond : (!strTruthy e && !strTruthy p) = false)
    (hmem : ex ∈ s.rows) (hdel : ex.deletedAt = none) (hex : exactPred e p ex = true) :
    ∃ y, findExactMatch s e p = some y := by
  have hq : findExactMatch s e p =
      s.rows.find? fun c => c.deletedAt == none && exactPred e p c := by
    unfold findExactMatch
    rw [hcond]
    rfl
  rw [hq, ← Option.isSome_iff_exists, List.find?_isSome]
  exact ⟨ex, hmem, by simp [hdel, hex]⟩

lemma contains_all_eq {l : List Nat} {k : Nat} (hk : k ∈ l)
    (hall : ∀ x ∈ l, x = k) : ∀ y, l.contains y = (y == k) := by
  intro y
  by_cases hy : y = k
  · subst hy
    rw [beq_self_eq_true]
    exact List.elem_iff.mpr hk
  · rw [beq_eq_false_iff_ne.mpr hy, Bool.eq_false_iff]
    intro hc
    exact hy (hall y (List.elem_iff.mp hc))

lemma eq_singleton_of_nodup {α : Type} {l : List α} {a : α}
    (hnd : l.Nodup) (ha : a ∈ l) (hall : ∀ x ∈ l, x = a) : l = [a] := by
  cases l with
  | nil => cases ha
  | cons b t =>
    have hb : b = a := hall b (List.mem_cons_self b t)
    have ht : t = [] := by
      rw [List.eq_nil_iff_forall_not_mem]
      intro x hx
      have hxa : x = a := hall x (List.mem_cons_of_mem b hx)
      have hbt : b ∉ t := (List.nodup_cons.mp hnd).1
      rw [hxa, ← hb] at hx
      exact hbt hx
    rw [ht, hb]

lemma WF_createContact {s : Store} (hwf : WF s) {d : ContactCreateInput}
    (hd : d.linkPrecedence = LinkPrecedence.primary → d.linkedId = none)
    (hsec : d.linkPrecedence = LinkPrecedence.secondary →
      ∃ p ∈ s.rows, d.linkedId = some p.id ∧ p.deletedAt = none ∧
        p.linkPrecedence = LinkPrecedence.primary) :
    WF (createContact s d).2 := by
  obtain ⟨h1, h2, h3, h4⟩ := hwf
  refine ⟨?_, ?_, ?_, ?_⟩
  · show ((s.rows ++ [_]).map Contact.id).Nodup
    rw [List.map_append]
    rw [List.nodup_append]
    refine ⟨h1, by simp, ?_⟩
    intro a ha hb
    rcases List.mem_map.mp ha with ⟨x, hx, hxa⟩
    have hlt := h2 x hx
    simp only [List.map_cons, List.map_nil, List.mem_singleton] at hb
    rw [hb] at hxa
    rw [hxa] at hlt
    exact Nat.lt_irrefl _ hlt
  · intro c hc
    rcases List.mem_append.mp hc with hold | hnew
    · exact Nat.lt_trans (h2 c hold) (Nat.lt_succ_self _)
    · rw [List.mem_singleton.mp hnew]
      exact Nat.lt_succ_self _
  · intro c hc hp
    rcases List.mem_append.mp hc with hold | hnew
    · exact h3 c hold hp
    · rw [List.mem_singleton.mp hnew] at hp ⊢
      exact hd hp
  · intro c hc hdel hsecc
    rcases List.mem_append.mp hc with hold | hnew
    · obtain ⟨q, hq, hql, hqd, hqp⟩ := h4 c hold hdel hsecc
      exact ⟨q, List.mem_append_left _ hq, hql, hqd, hqp⟩
    · rw [List.mem_singleton.mp hnew] at hsecc ⊢
      obtain ⟨q, hq, hql, hqd, hqp⟩ := hsec hsecc
      exact ⟨q, List.mem_append_left _ hq, hql, hqd, hqp⟩

lemma inCluster_iff {ids : List Nat} {c : Contact} :
    inCluster ids c = true ↔
      (c.id ∈ ids ∨ (∃ j, c.linkedId = some j ∧ j ∈ ids)) ∧ c.deletedAt = none := by
  unfold inCluster
  cases hl : c.linkedId with
  | none => simp [List.contains, List.elem_iff]
  | some j => simp [List.contains, List.elem_iff]

lemma sorted_filter_nodup_ids {l : List Contact}
    (h : (l.map Contact.id).Nodup) (p : Contact → Bool) :
    ((sortByCreatedAt (l.filter p)).map Contact.id).Nodup := by
  have hsub := List.filter_sublist (p := p) l
  have hperm := perm_sortByCreatedAt (l.filter p)
  exact ((hperm.map Contact.id).nodup_iff).mpr
    (List.Nodup.sublist (hsub.map Contact.id) h)

lemma cluster_nodup_ids {s : Store} (h1 : (s.rows.map Contact.id).Nodup)
    (ids : List Nat) : ((fetchCluster s ids).map Contact.id).Nodup :=
  sorted_filter_nodup_ids h1 (inCluster ids)

lemma finalCluster_nodup_ids {s : Store} (h1 : (s.rows.map Contact.id).Nodup)
    (pid : Nat) : ((fetchFinalCluster s pid).map Contact.id).Nodup :=
  sorted_filter_nodup_ids h1 (inFinalCluster pid)

lemma electPrimaries_nodup_ids {cluster : List Contact}
    (hc : (cluster.map Contact.id).Nodup) :
    ((electPrimaries cluster).map Contact.id).Nodup :=
  sorted_filter_nodup_ids hc isPrimaryRow

lemma identifyTx_of_match {s : Store} {input : IdentifyInput} {dm : List Contact}
    (hdm : findDirectMatches s input.email input.phoneNumber = dm) (hne : dm ≠ []) :
    identifyTx s input = matchBranch s input dm := by
  have hfalse : dm.isEmpty = false := List.isEmpty_eq_false.mpr hne
  simp only [identifyTx, hdm, hfalse, Bool.false_eq_true, if_false]

lemma post_createPrimaryBranch {s : Store} {input : IdentifyInput}
    (hwf : WF s)
    (hcond : (!strTruthy input.email && !strTruthy input.phoneNumber) = false)
    (hdm : findDirectMatches s input.email input.phoneNumber = []) :
    ∃ r s1 canon, identify s input = Except.ok (r, s1) ∧
      PostState input r s1 canon ∧ s1.rows.length ≤ s.rows.length + 1 := by
  obtain ⟨h1, h2, h3, h4⟩ := hwf
  have hPmem : newPrimaryContact s input ∈ [newPrimaryContact s input] :=
    List.mem_singleton.mpr rfl
  obtain ⟨R, hR⟩ := formatResponse_isOk_of_primary hPmem rfl
  refine ⟨R, { rows := s.rows ++ [newPrimaryContact s input],
               nextId := s.nextId + 1, now := s.now },
          newPrimaryContact s input, ?_, ?_, ?_⟩
  · rw [identify_of_truthy hcond, identifyTx_of_no_match hdm]
    have hstep : createPrimaryBranch s input =
        (formatResponse [newPrimaryContact s input]).map
          (fun x => (x, ({ rows := s.rows ++ [newPrimaryContact s input],
                           nextId := s.nextId + 1, now := s.now } : Store))) := rfl
    rw [hstep, hR]
    rfl
  · have hfin : fetchFinalCluster
        { rows := s.rows ++ [newPrimaryContact s input],
          nextId := s.nextId + 1, now := s.now } (newPrimaryContact s input).id =
        [newPrimaryContact s input] := by
      unfold fetchFinalCluster
      have hnil : (s.rows.filter (inFinalCluster (newPrimaryContact s input).id)) = [] := by
        rw [List.filter_eq_nil_iff]
        intro c hc hcf
        unfold inFinalCluster at hcf
        simp only [Bool.and_eq_true, Bool.or_eq_true, beq_iff_eq] at hcf
        obtain ⟨hor, hdel⟩ := hcf
        rcases hor with hid | hlid
        · have := h2 c hc
          rw [hid] at this
          exact Nat.lt_irrefl _ this
        · cases hcp : c.linkPrecedence with
          | primary =>
            rw [h3 c hc hcp] at hlid
            exact Option.noConfusion hlid
          | secondary =>
            obtain ⟨p, hp, hpl, _, _⟩ := h4 c hc hdel hcp
            rw [hpl] at hlid
            have hpe : p.id = (newPrimaryContact s input).id :=
              (Option.some.injEq _ _).mp hlid
            have := h2 p hp
            rw [hpe] at this
            exact Nat.lt_irrefl _ this
      have hone : List.filter (inFinalCluster (newPrimaryContact s input).id)
          [newPrimaryContact s input] = [newPrimaryContact s input] := by
        have ht : inFinalCluster (newPrimaryContact s input).id
            (newPrimaryContact s input) = true := by
          unfold inFinalCluster
          simp [newPrimaryContact]
        simp [ht]
      show sortByCreatedAt (List.filter _ (s.rows ++ [newPrimaryContact s input])) = _
      rw [List.filter_append, hnil, hone]
      rfl
    refine ⟨List.mem_append_right _ hPmem, rfl, rfl, ?_, ?_, ?_, ?_⟩
    · have hwf2 := WF_createContact (d :=
        { email := input.email, phoneNumber := input.phoneNumber,
          linkedId := none, linkPrecedence := LinkPrecedence.primary })
        ⟨h1, h2, h3, h4⟩ (fun _ => rfl) (fun h => LinkPrecedence.noConfusion h)
      exact hwf2
    · intro c hc hdel hmatch
      rcases List.mem_append.mp hc with hold | hnew
      · exfalso
        have : c ∈ findDirectMatches s input.email input.phoneNumber :=
          mem_findDirectMatches.mpr ⟨hold, hdel, hmatch⟩
        rw [hdm] at this
        exact List.not_mem_nil c this
      · rw [List.mem_singleton.mp hnew]
        exact Or.inl rfl
    · exact ⟨newPrimaryContact s input, List.mem_append_right _ hPmem, rfl,
        exactPred_self hcond rfl rfl⟩
    · rw [hfin]
      exact hR
  · simp

lemma post_matchBranch {s : Store} {input : IdentifyInput}
    (hwf : WF s)
    (hcond : (!strTruthy input.email && !strTruthy input.phoneNumber) = false)
    {dm : List Contact}
    (hdm : findDirectMatches s input.email input.phoneNumber = dm)
    (hne : dm ≠ []) :
    ∃ r s1 canon, identify s input = Except.ok (r, s1) ∧
      PostState input r s1 canon ∧ s1.rows.length ≤ s.rows.length + 1 := by
  obtain ⟨h1, h2, h3, h4⟩ := hwf
  have hmemdm : ∀ c : Contact, c ∈ dm ↔ c ∈ s.rows ∧ c.deletedAt = none ∧
      rowMatches input.email input.phoneNumber c = true := by
    intro c
    rw [← hdm]
    exact mem_findDirectMatches
  have hPne : electPrimaries (fetchCluster s (collectPrimaryIds dm)) ≠ [] := by
    obtain ⟨c0, hc0⟩ := List.exists_mem_of_ne_nil dm hne
    obtain ⟨hc0r, hc0d, _⟩ := (hmemdm c0).mp hc0
    cases hcp : c0.linkPrecedence with
    | primary =>
      have hid : c0.id ∈ collectPrimaryIds dm :=
        mem_collectPrimaryIds.mpr ⟨c0, hc0, Or.inl ⟨hcp, rfl⟩⟩
      have hcl : c0 ∈ fetchCluster s (collectPrimaryIds dm) :=
        mem_fetchCluster.mpr ⟨hc0r, inCluster_iff.mpr ⟨Or.inl hid, hc0d⟩⟩
      exact List.ne_nil_of_mem (mem_electPrimaries.mpr ⟨hcl, hcp⟩)
    | secondary =>
      obtain ⟨p, hp, hpl, hpd, hpp⟩ := h4 c0 hc0r hc0d hcp
      have hid : p.id ∈ collectPrimaryIds dm :=
        mem_collectPrimaryIds.mpr ⟨c0, hc0,
          Or.inr ⟨by rw [hcp]; intro hh; exact LinkPrecedence.noConfusion hh, hpl⟩⟩
      have hcl : p ∈ fetchCluster s (collectPrimaryIds dm) :=
        mem_fetchCluster.mpr ⟨hp, inCluster_iff.mpr ⟨Or.inl hid, hpd⟩⟩
      exact List.ne_nil_of_mem (mem_electPrimaries.mpr ⟨hcl, hpp⟩)
  cases heP : electPrimaries (fetchCluster s (collectPrimaryIds dm)) with
  | nil => exact absurd heP hPne
  | cons canon demoted =>
  have heP_mem : ∀ x ∈ canon :: demoted,
      x ∈ s.rows ∧ x.deletedAt = none ∧ x.linkPrecedence = LinkPrecedence.primary ∧
      x.linkedId = none := by
    intro x hx
    have hx2 := mem_electPrimaries.mp (heP ▸ hx)
    have hx3 := mem_fetchCluster.mp hx2.1
    have hx4 := inCluster_iff.mp hx3.2
    exact ⟨hx3.1, hx4.2, hx2.2, h3 x hx3.1 hx2.2⟩
  obtain ⟨hcanr, hcand, hcanp, hcanl⟩ := heP_mem canon (List.mem_cons_self _ _)
  have hnodupP : ((canon :: demoted).map Contact.id).Nodup := by
    rw [← heP]
    exact electPrimaries_nodup_ids (cluster_nodup_ids h1 _)
  rw [List.map_cons, List.nodup_cons] at hnodupP
  have hcannot : canon.id ∉ demoted.map Contact.id := hnodupP.1
  have hdsnodup : (demoted.map Contact.id).Nodup := hnodupP.2
  have hdem : ∀ d ∈ demoted, d ∈ s.rows ∧ d.deletedAt = none ∧
      d.linkPrecedence = LinkPrecedence.primary ∧ d.linkedId = none :=
    fun d hd => heP_mem d (List.mem_cons_of_mem canon hd)
  have hrows2 : (runMerges canon.id s (demoted.map Contact.id)).rows =
      s.rows.map (mergeRows canon.id s.now (demoted.map Contact.id)) :=
    runMerges_rows _ _ _
  have hFcanon : mergeRows canon.id s.now (demoted.map Contact.id) canon = canon :=
    mergeRows_untouched _ _ _ _ hcannot
      (fun e he hsome => by rw [hcanl] at hsome; exact Option.noConfusion hsome)
  have hcanon2 : canon ∈ (runMerges canon.id s (demoted.map Contact.id)).rows := by
    rw [hrows2]
    exact List.mem_map.mpr ⟨canon, hcanr, hFcanon⟩
  have hK2 : ∀ c ∈ s.rows, c.linkPrecedence = LinkPrecedence.secondary →
      c.id ∉ demoted.map Contact.id := by
    intro c hc hcp hmem
    rcases List.mem_map.mp hmem with ⟨d, hd, hdid⟩
    have hdf := hdem d hd
    have hdc : d = c := List.inj_on_of_nodup_map h1 hdf.1 hc hdid
    rw [hdc] at hdf
    exact LinkPrecedence.noConfusion (hdf.2.2.1.symm.trans hcp)
  have hwf2 : WF (runMerges canon.id s (demoted.map Contact.id)) := by
    have hids2 : (runMerges canon.id s (demoted.map Contact.id)).rows.map Contact.id =
        s.rows.map Contact.id := by
      rw [hrows2, List.map_map]
      exact List.map_congr_left fun c _ => mergeRows_id _ _ _ c
    refine ⟨?_, ?_, ?_, ?_⟩
    · rw [hids2]
      exact h1
    · intro c hc
      rw [hrows2] at hc
      rcases List.mem_map.mp hc with ⟨c0, hc0, rfl⟩
      rw [mergeRows_id, runMerges_nextId]
      exact h2 c0 hc0
    · intro c hc hp
      rw [hrows2] at hc
      rcases List.mem_map.mp hc with ⟨c0, hc0, rfl⟩
      obtain ⟨hp0, hnr⟩ := mergeRows_primary_of hp
      have hl0 := h3 c0 hc0 hp0
      rw [mergeRows_untouched _ _ _ _ hnr
        (fun e he hsome => by rw [hl0] at hsome; exact Option.noConfusion hsome)]
      exact hl0
    · intro c hc hdel hsec
      rw [hrows2] at hc
      rcases List.mem_map.mp hc with ⟨c0, hc0, rfl⟩
      rw [mergeRows_deletedAt] at hdel
      cases hcp : c0.linkPrecedence with
      | primary =>
        have hl0 := h3 c0 hc0 hcp
        by_cases hin : c0.id ∈ demoted.map Contact.id
        · refine ⟨canon, ?_, ?_, hcand, hcanp⟩
          · rw [hrows2]
            exact List.mem_map.mpr ⟨canon, hcanr, hFcanon⟩
          · rw [mergeRows_prim _ _ hl0 hcannot hdsnodup, if_pos hin]
        · rw [mergeRows_untouched _ _ _ _ hin
            (fun e he hsome => by rw [hl0] at hsome; exact Option.noConfusion hsome)] at hsec
          exact LinkPrecedence.noConfusion (hcp.symm.trans hsec)
      | secondary =>
        have hnotin := hK2 c0 hc0 hcp
        obtain ⟨p, hp, hpl, hpd, hpp⟩ := h4 c0 hc0 hdel hcp
        by_cases hin : p.id ∈ demoted.map Contact.id
        · refine ⟨canon, ?_, ?_, hcand, hcanp⟩
          · rw [hrows2]
            exact List.mem_map.mpr ⟨canon, hcanr, hFcanon⟩
          · rw [mergeRows_sec canon.id s.now hdel hnotin hcannot hpl, if_pos hin]
        · rw [mergeRows_sec canon.id s.now hdel hnotin hcannot hpl, if_neg hin]
          have hFp : mergeRows canon.id s.now (demoted.map Contact.id) p = p :=
            mergeRows_untouched _ _ _ _ hin
              (fun e he hsome => by rw [h3 p hp hpp] at hsome; exact Option.noConfusion hsome)
          refine ⟨p, ?_, hpl, hpd, hpp⟩
          rw [hrows2]
          exact List.mem_map.mpr ⟨p, hp, hFp⟩
  have directed2 : ∀ c ∈ (runMerges canon.id s (demoted.map Contact.id)).rows,
      c.deletedAt = none → rowMatches input.email input.phoneNumber c = true →
      c.id = canon.id ∨ c.linkedId = some canon.id := by
    intro c hc hdel hmatch
    rw [hrows2] at hc
    rcases List.mem_map.mp hc with ⟨c0, hc0, rfl⟩
    rw [mergeRows_deletedAt] at hdel
    have hmatch0 : rowMatches input.email input.phoneNumber c0 = true := by
      unfold rowMatches at hmatch ⊢
      rw [mergeRows_email, mergeRows_phoneNumber] at hmatch
      exact hmatch
    have hc0dm : c0 ∈ dm := (hmemdm c0).mpr ⟨hc0, hdel, hmatch0⟩
    cases hcp : c0.linkPrecedence with
    | primary =>
      have hid : c0.id ∈ collectPrimaryIds dm :=
        mem_collectPrimaryIds.mpr ⟨c0, hc0dm, Or.inl ⟨hcp, rfl⟩⟩
      have hcl : c0 ∈ fetchCluster s (collectPrimaryIds dm) :=
        mem_fetchCluster.mpr ⟨hc0, inCluster_iff.mpr ⟨Or.inl hid, hdel⟩⟩
      have hin : c0 ∈ canon :: demoted := heP ▸ mem_electPrimaries.mpr ⟨hcl, hcp⟩
      have hl0 := h3 c0 hc0 hcp
      rcases List.mem_cons.mp hin with heq0 | hdem0
      · left
        rw [mergeRows_id, heq0]
      · right
        rw [mergeRows_prim _ _ hl0 hcannot hdsnodup,
          if_pos (List.mem_map.mpr ⟨c0, hdem0, rfl⟩)]
    | secondary =>
      have hnotin := hK2 c0 hc0 hcp
      obtain ⟨p, hp, hpl, hpd, hpp⟩ := h4 c0 hc0 hdel hcp
      have hid : p.id ∈ collectPrimaryIds dm :=
        mem_collectPrimaryIds.mpr ⟨c0, hc0dm,
          Or.inr ⟨by rw [hcp]; intro hh; exact LinkPrecedence.noConfusion hh, hpl⟩⟩
      have hcl : p ∈ fetchCluster s (collectPrimaryIds dm) :=
        mem_fetchCluster.mpr ⟨hp, inCluster_iff.mpr ⟨Or.inl hid, hpd⟩⟩
      have hin : p ∈ canon :: demoted := heP ▸ mem_electPrimaries.mpr ⟨hcl, hpp⟩
      rcases List.mem_cons.mp hin with heq0 | hdem0
      · right
        rw [mergeRows_sec canon.id s.now hdel hnotin hcannot hpl, if_neg
          (by rw [heq0] at hpl ⊢; exact fun hh => hcannot (heq0 ▸ hh))]
        rw [hpl, heq0]
      · right
        rw [mergeRows_sec canon.id s.now hdel hnotin hcannot hpl,
          if_pos (List.mem_map.mpr ⟨p, hdem0, rfl⟩)]
  have hidTx := identifyTx_of_match hdm hne
  have hmb : matchBranch s input dm = mergePhase s input canon demoted := by
    simp only [matchBranch, heP]
  cases hfe : findExactMatch (runMerges canon.id s (demoted.map Contact.id))
      input.email input.phoneNumber with
  | some ex0 =>
    have hmp : mergePhase s input canon demoted =
        (formatResponse (fetchFinalCluster
          (runMerges canon.id s (demoted.map Contact.id)) canon.id)).map
          (fun x => (x, runMerges canon.id s (demoted.map Contact.id))) := by
      simp only [mergePhase, hfe]
    obtain ⟨hex0r, hex0d, hex0p⟩ := findExactMatch_eq_some hfe
    have hfinmem : canon ∈ fetchFinalCluster
        (runMerges canon.id s (demoted.map Contact.id)) canon.id :=
      mem_fetchFinalCluster.mpr ⟨hcanon2, hcand, Or.inl rfl⟩
    obtain ⟨R, hR⟩ := formatResponse_isOk_of_primary hfinmem hcanp
    refine ⟨R, runMerges canon.id s (demoted.map Contact.id), canon, ?_, ?_, ?_⟩
    · rw [identify_of_truthy hcond, hidTx, hmb, hmp, hR]
      rfl
    · exact ⟨hcanon2, hcand, hcanp, hwf2, directed2, ⟨ex0, hex0r, hex0d, hex0p⟩, hR⟩
    · rw [hrows2, List.length_map]
      exact Nat.le_succ _
  | none =>
    have hmp : mergePhase s input canon demoted =
        (formatResponse (fetchFinalCluster
          (createContact (runMerges canon.id s (demoted.map Contact.id))
            { email := input.email, phoneNumber := input.phoneNumber,
              linkedId := some canon.id,
              linkPrecedence := LinkPrecedence.secondary }).2 canon.id)).map
          (fun x => (x, (createContact (runMerges canon.id s (demoted.map Contact.id))
            { email := input.email, phoneNumber := input.phoneNumber,
              linkedId := some canon.id,
              linkPrecedence := LinkPrecedence.secondary }).2)) := by
      simp only [mergePhase, hfe]
    have hcanon3 : canon ∈ (createContact (runMerges canon.id s (demoted.map Contact.id))
        { email := input.email, phoneNumber := input.phoneNumber,
          linkedId := some canon.id,
          linkPrecedence := LinkPrecedence.secondary }).2.rows := by
      show canon ∈ (runMerges canon.id s (demoted.map Contact.id)).rows ++ [_]
      exact List.mem_append_left _ hcanon2
    have hfinmem : canon ∈ fetchFinalCluster
        (createContact (runMerges canon.id s (demoted.map Contact.id))
          { email := input.email, phoneNumber := input.phoneNumber,
            linkedId := some canon.id,
            linkPrecedence := LinkPrecedence.secondary }).2 canon.id :=
      mem_fetchFinalCluster.mpr ⟨hcanon3, hcand, Or.inl rfl⟩
    obtain ⟨R, hR⟩ := formatResponse_isOk_of_primary hfinmem hcanp
    refine ⟨R, (createContact (runMerges canon.id s (demoted.map Contact.id))
      { email := input.email, phoneNumber := input.phoneNumber,
        linkedId := some canon.id,
        linkPrecedence := LinkPrecedence.secondary }).2, canon, ?_, ?_, ?_⟩
    · rw [identify_of_truthy hcond, hidTx, hmb, hmp, hR]
      rfl
    · refine ⟨hcanon3, hcand, hcanp, ?_, ?_, ?_, hR⟩
      · exact WF_createContact hwf2 (fun hh => LinkPrecedence.noConfusion hh)
          (fun _ => ⟨canon, hcanon2, rfl, hcand, hcanp⟩)
      · intro c hc hdel hmatch
        rcases List.mem_append.mp hc with hold | hnew
        · exact directed2 c hold hdel hmatch
        · right
          rw [List.mem_singleton.mp hnew]
      · refine ⟨(createContact (runMerges canon.id s (demoted.map Contact.id))
          { email := input.email, phoneNumber := input.phoneNumber,
            linkedId := some canon.id,
            linkPrecedence := LinkPrecedence.secondary }).1, ?_, rfl,
          exactPred_self hcond rfl rfl⟩
        show _ ∈ (runMerges canon.id s (demoted.map Contact.id)).rows ++ [_]
        exact List.mem_append_right _ (List.mem_singleton.mpr rfl)
    · show ((runMerges canon.id s (demoted.map Contact.id)).rows ++ [_]).length ≤ _
      rw [List.length_append, hrows2, List.length_map]
      simp

lemma identify_post {s : Store} {input : IdentifyInput}
    (hwf : WF s)
    (hcond : (!strTruthy input.email && !strTruthy input.phoneNumber) = false) :
    ∃ r s1 canon, identify s input = Except.ok (r, s1) ∧
      PostState input r s1 canon ∧ s1.rows.length ≤ s.rows.length + 1 := by
  cases hdm : findDirectMatches s input.email input.phoneNumber with
  | nil => exact post_createPrimaryBranch hwf hcond hdm
  | cons a t => exact post_matchBranch hwf hcond hdm (by simp)

lemma falsy_of_cond_true {input : IdentifyInput}
    (hb : (!strTruthy input.email && !strTruthy input.phoneNumber) = true) :
    strTruthy input.email = false ∧ strTruthy input.phoneNumber = false := by
  constructor
  · cases hq : strTruthy input.email with
    | false => rfl
    | true => rw [hq] at hb; simp at hb
  · cases hq : strTruthy input.phoneNumber with
    | false => rfl
    | true => rw [hq] at hb; simp at hb

lemma identify_again {input : IdentifyInput} {r : IdentifyResponse} {s1 : Store}
    {canon : Contact}
    (hcond : (!strTruthy input.email && !strTruthy input.phoneNumber) = false)
    (hpost : PostState input r s1 canon) :
    identify s1 input = Except.ok (r, s1) := by
  obtain ⟨hcm, hcd, hcp, hwf, hdir, ⟨ex, hexr, hexd, hexp⟩, hfmt⟩ := hpost
  obtain ⟨h1, h2, h3, h4⟩ := hwf
  have hexm : rowMatches input.email input.phoneNumber ex = true :=
    rowMatches_of_exactPred hexp
  have hexdm : ex ∈ findDirectMatches s1 input.email input.phoneNumber :=
    mem_findDirectMatches.mpr ⟨hexr, hexd, hexm⟩
  have hne : findDirectMatches s1 input.email input.phoneNumber ≠ [] :=
    List.ne_nil_of_mem hexdm
  have hall : ∀ x ∈ collectPrimaryIds (findDirectMatches s1 input.email input.phoneNumber),
      x = canon.id := by
    intro x hx
    obtain ⟨c, hc, hor⟩ := mem_collectPrimaryIds.mp hx
    obtain ⟨hcr, hcdel, hcmatch⟩ := mem_findDirectMatches.mp hc
    rcases hor with ⟨hcprim, rfl⟩ | ⟨hcnprim, hlid⟩
    · rcases hdir c hcr hcdel hcmatch with hid | hlid2
      · exact hid
      · rw [h3 c hcr hcprim] at hlid2
        exact Option.noConfusion hlid2
    · rcases hdir c hcr hcdel hcmatch with hid | hlid2
      · have hcc : c = canon := List.inj_on_of_nodup_map h1 hcr hcm hid
        rw [hcc] at hcnprim
        exact absurd hcp hcnprim
      · rw [hlid2] at hlid
        exact ((Option.some.injEq _ _).mp hlid).symm
  have hkmem : canon.id ∈
      collectPrimaryIds (findDirectMatches s1 input.email input.phoneNumber) := by
    rcases hdir ex hexr hexd hexm with hid | hlid2
    · have hec : ex = canon := List.inj_on_of_nodup_map h1 hexr hcm hid
      exact mem_collectPrimaryIds.mpr ⟨ex, hexdm,
        Or.inl ⟨by rw [hec]; exact hcp, hid.symm⟩⟩
    · cases hexcp : ex.linkPrecedence with
      | primary =>
        rw [h3 ex hexr hexcp] at hlid2
        exact Option.noConfusion hlid2
      | secondary =>
        exact mem_collectPrimaryIds.mpr ⟨ex, hexdm,
          Or.inr ⟨by rw [hexcp]; intro hh; exact LinkPrecedence.noConfusion hh, hlid2⟩⟩
  have hcontains := contains_all_eq hkmem hall
  have hclu : fetchCluster s1
      (collectPrimaryIds (findDirectMatches s1 input.email input.phoneNumber)) =
      fetchFinalCluster s1 canon.id := by
    unfold fetchCluster fetchFinalCluster
    congr 1
    apply List.filter_congr
    intro c _
    unfold inCluster inFinalCluster
    cases hl : c.linkedId with
    | none =>
      simp only [hcontains]
      rfl
    | some j =>
      simp only [hcontains]
      rfl
  have heP2 : electPrimaries (fetchCluster s1
      (collectPrimaryIds (findDirectMatches s1 input.email input.phoneNumber))) =
      [canon] := by
    rw [hclu]
    have hF : (fetchFinalCluster s1 canon.id).filter isPrimaryRow = [canon] := by
      apply eq_singleton_of_nodup
      · exact List.Nodup.sublist (List.filter_sublist _)
          (List.Nodup.of_map _ (finalCluster_nodup_ids h1 canon.id))
      · exact List.mem_filter.mpr
          ⟨mem_fetchFinalCluster.mpr ⟨hcm, hcd, Or.inl rfl⟩, by simp [isPrimaryRow, hcp]⟩
      · intro x hx
        have hx2 := List.mem_filter.mp hx
        have hx3 := mem_fetchFinalCluster.mp hx2.1
        have hxprim : x.linkPrecedence = LinkPrecedence.primary := by
          simpa [isPrimaryRow] using hx2.2
        rcases hx3.2.2 with hid | hlid
        · exact List.inj_on_of_nodup_map h1 hx3.1 hcm hid
        · rw [h3 x hx3.1 hxprim] at hlid
          exact Option.noConfusion hlid
    unfold electPrimaries
    rw [hF]
    rfl
  rw [identify_of_truthy hcond, identifyTx_of_match rfl hne]
  have hmb : matchBranch s1 input (findDirectMatches s1 input.email input.phoneNumber) =
      mergePhase s1 input canon [] := by
    simp only [matchBranch, heP2]
  rw [hmb]
  obtain ⟨y, hy⟩ := findExactMatch_isSome hcond hexr hexd hexp
  have hmp : mergePhase s1 input canon [] =
      (formatResponse (fetchFinalCluster s1 canon.id)).map (fun x => (x, s1)) := by
    simp only [mergePhase, List.map_nil, runMerges, hy]
  rw [hmp, hfmt]
  rfl

/-- C10: on a well-formed store (unique ids, primaries without linkedId, every
live secondary linked to a live primary row, so every live cluster has a
primary) identify never hits the formatter's invariant fault nor the
unguarded dereference of a missing elected primary; only the validation
fault or a normal result is possible. -/
theorem c10_no_invariant_fault (s : Store) (input : IdentifyInput) (hwf : WF s) :
    identify s input ≠ Except.error Fault.noPrimary ∧
    identify s input ≠ Except.error Fault.undefinedAccess := by
  cases hb : (!strTruthy input.email && !strTruthy input.phoneNumber) with
  | true =>
    obtain ⟨he, hp⟩ := falsy_of_cond_true hb
    rw [identify_of_falsy he hp]
    constructor
    · intro hh
      exact Fault.noConfusion ((Except.error.injEq _ _).mp hh)
    · intro hh
      exact Fault.noConfusion ((Except.error.injEq _ _).mp hh)
  | false =>
    obtain ⟨r, s1, canon, heq, _, _⟩ := identify_post hwf hb
    rw [heq]
    constructor
    · intro hh
      exact Except.noConfusion hh
    · intro hh
      exact Except.noConfusion hh

/-- C10 witness: a well-formed store and a two-field input reach a normal
result, so neither fault value is the outcome. -/
theorem c10_witness :
    identify emptyStore inputA ≠ Except.error Fault.noPrimary ∧
    identify emptyStore inputA ≠ Except.error Fault.undefinedAccess :=
  c10_no_invariant_fault emptyStore inputA (by decide)

/-- C3: against a well-formed store, once a call of identify has succeeded,
re-issuing the same input leaves the store untouched and returns the very
same response (the exact-match re-query finds the row and no contact is
created, merging is already done), so N calls create at most the one row
of the first call and every later response equals the first. -/
theorem c3_idempotence (s : Store) (input : IdentifyInput) (r : IdentifyResponse)
    (s1 : Store) (hwf : WF s) (hfirst : identify s input = Except.ok (r, s1)) :
    identify s1 input = Except.ok (r, s1) ∧
    s1.rows.length ≤ s.rows.length + 1 ∧
    ∀ n, iterateIdentify input n s = Except.ok (r, s1) := by
  have hcond : (!strTruthy input.email && !strTruthy input.phoneNumber) = false := by
    cases hb : (!strTruthy input.email && !strTruthy input.phoneNumber) with
    | false => rfl
    | true =>
      obtain ⟨he, hp⟩ := falsy_of_cond_true hb
      rw [identify_of_falsy he hp] at hfirst
      exact Except.noConfusion hfirst
  obtain ⟨r2, s2, canon, heq, hpost, hlen⟩ := identify_post hwf hcond
  have hpair : (r2, s2) = (r, s1) :=
    (Except.ok.injEq _ _).mp (heq.symm.trans hfirst)
  have hr : r2 = r := congrArg Prod.fst hpair
  have hs : s2 = s1 := congrArg Prod.snd hpair
  subst hr
  subst hs
  have hsecond := identify_again hcond hpost
  have haux : ∀ m, iterateIdentify input m s2 = Except.ok (r2, s2) := by
    intro m
    induction m with
    | zero => exact hsecond
    | succ k ihk =>
      show iterateIdentify input (k + 1) s2 = _
      simp only [iterateIdentify, hsecond]
      exact ihk
  refine ⟨hsecond, hlen, ?_⟩
  intro n
  cases n with
  | zero => exact hfirst
  | succ m =>
    show iterateIdentify input (m + 1) s = _
    simp only [iterateIdentify, hfirst]
    exact haux m

/-- C3 witness: the second call on the concrete one-row store is a no-op with
the identical response, and iterating four calls from the empty store still
returns the first response and store. -/
theorem c3_witness :
    identify storeA inputA = Except.ok (responseA, storeA) ∧
    iterateIdentify inputA 3 emptyStore = Except.ok (responseA, storeA) := by
  have h := c3_idempotence emptyStore inputA responseA storeA (by decide) (by decide)
  exact ⟨h.1, h.2.2 3⟩

end Bitespeed
